import Mathlib

/-!
# Verification of the nussl `AudioSignal` core against its specification

This file shallowly embeds `nussl/core/audio_signal.py` (the `AudioSignal`
class) and, for the parts of the repository that are referenced but whose
source is not present (the `stft_utils` STFT engine, the `constants` module
and the mask base class), models them from the specification's words.

Conventions of the embedding:
* numpy float arrays are modelled over `ℚ` (exact arithmetic; the spec's
  floating tolerances are subsumed by exact equality where we prove equality);
* a possibly non-finite float (NaN/inf) is modelled as `Option ℚ` with `none`
  standing for a non-finite value — only the `audio_data` setter inspects
  finiteness, stored data is always finite;
* `audio_data` (`_audio_data`) is a channels × samples list of lists;
* `stft_data` (`_stft_data`) is stored channels-major
  (channels × frames × bins); the numpy array is (bins, frames, channels),
  the two layouts are axis permutations of one another and shape equality of
  rectangular arrays is preserved;
* python exceptions are `Except String` / an `Option String` error component
  (mutators that can leave a partially updated object behind return the
  post-raise state alongside the error);
* the integer dtype flag of an array is the `isFloat : Bool` field.
-/

namespace Nussl

/-- Python slice index normalisation: for a list of length `n`, a python
index `i` used in a slice maps to `max (n + i) 0` when negative, else
`min i n`. -/
def pyIdx (n : ℕ) (i : ℤ) : ℕ :=
  if i < 0 then (max ((n : ℤ) + i) 0).toNat else min i.toNat n

/-- Python slice `l[a:b]` (step 1) semantics. -/
def pySlice (a b : ℤ) (l : List α) : List α :=
  (l.take (pyIdx l.length b)).drop (pyIdx l.length a)

/-- Number of samples of a stored 2-D array: `shape[constants.LEN_INDEX]`,
i.e. the length of a row (channels × samples layout, `LEN_INDEX = 1`). -/
def rowLen (d : List (List ℚ)) : ℕ := (d.getD 0 []).length

/-- The `AudioSignal` object state.  `σ` is the scalar type of the
time-frequency array (`ℚ` when only real values are needed, a complex pair
type otherwise).  Fields mirror `_audio_data`, `_sample_rate`,
`_active_start`, `_active_end`, `_stft_data`; `isFloat` models the numpy
dtype (float vs. integer) of `_audio_data`. -/
structure ASig (σ : Type) where
  audioData : Option (List (List ℚ))
  isFloat : Bool
  sampleRate : ℚ
  activeStart : Option ℤ
  activeEnd : Option ℤ
  stftData : Option (List (List (List σ)))
  deriving Repr, DecidableEq

/-- `AudioSignal._signal_length`: length of the full stored signal
(not just the active region); `None` when there is no audio data. -/
def signalLengthFull (s : ASig σ) : Option ℕ :=
  s.audioData.map rowLen

/-- The `audio_data` property getter: the active-region view
`_audio_data[:, start:end]`. -/
def audio_data (s : ASig σ) : Option (List (List ℚ)) :=
  match s.audioData with
  | none => none
  | some d =>
    let full : ℤ := (rowLen d : ℤ)
    let e : ℤ := match s.activeEnd with
      | some e0 => if e0 < full then e0 else full
      | none => full
    let a : ℤ := match s.activeStart with
      | some a0 => if 0 < a0 then a0 else 0
      | none => 0
    some (d.map (pySlice a e))

/-- `AudioSignal.signal_length`: number of samples of the active region. -/
def signal_length (s : ASig σ) : Option ℕ :=
  (audio_data s).map rowLen

/-- `AudioSignal.signal_duration` (seconds); only used with data present. -/
def signal_duration (s : ASig σ) : Option ℚ :=
  (signal_length s).map (fun l => (l : ℚ) / s.sampleRate)

/-- `AudioSignal.num_channels`: channel count from `audio_data`, else from
`stft_data` (`shape[STFT_CHAN_INDEX]`; our stft layout is channels-major so
this is the outer length), else `None`. -/
def num_channels (s : ASig σ) : Option ℕ :=
  match audio_data s with
  | some d => some d.length
  | none =>
    match s.stftData with
    | some st => some st.length
    | none => none

/-- `AudioSignal.active_region_is_default`:
`self._active_start == 0 and self._active_end == self._signal_length`. -/
def active_region_is_default (s : ASig σ) : Bool :=
  (s.activeStart == some 0) &&
    (match s.activeEnd, signalLengthFull s with
     | none, none => true
     | some e, some l => e == (l : ℤ)
     | _, _ => false)

/-- `AudioSignal.set_active_region(start, end)`:
`start if start >= 0 else 0` and `end if end < _signal_length else
_signal_length`.  (When there is no audio data the python-2 comparison
`end < None` is `False`, so `_active_end` becomes `None`.) -/
def set_active_region (s : ASig σ) (start endv : ℤ) : ASig σ :=
  { s with
    activeStart := some (if 0 ≤ start then start else 0)
    activeEnd :=
      match signalLengthFull s with
      | some l => some (if endv < (l : ℤ) then endv else (l : ℤ))
      | none => none }

/-- `AudioSignal.set_active_region_to_default()`. -/
def set_active_region_to_default (s : ASig σ) : ASig σ :=
  { s with
    activeStart := some 0
    activeEnd := (signalLengthFull s).map (fun l => (l : ℤ)) }

/-- A numpy array handed to the `audio_data` setter: rank 1, 2, or 3
(higher ranks behave like rank 3: rejected).  Entries are `Option ℚ`;
`none` stands for a non-finite float (NaN or infinity). -/
inductive NDArr where
  | r1 (v : List (Option ℚ))
  | r2 (m : List (List (Option ℚ)))
  | r3 (t : List (List (List (Option ℚ))))
  deriving Repr, DecidableEq

namespace NDArr

/-- `np.isfinite(value).all()`. -/
def allFinite : NDArr → Bool
  | r1 v => v.all (·.isSome)
  | r2 m => m.all (·.all (·.isSome))
  | r3 t => t.all (·.all (·.all (·.isSome)))

/-- `value.ndim`. -/
def ndim : NDArr → ℕ
  | r1 _ => 1
  | r2 _ => 2
  | r3 _ => 3

/-- `value.shape[0]` (`CHAN_INDEX`). -/
def shape0 : NDArr → ℕ
  | r1 v => v.length
  | r2 m => m.length
  | r3 t => t.length

/-- `value.shape[1]` (`LEN_INDEX`); rank 1 has no second axis (the setter
only compares `shape[0]` with `shape[1]` when `ndim > 1`). -/
def shape1 : NDArr → ℕ
  | r1 _ => 0
  | r2 m => (m.getD 0 []).length
  | r3 t => (t.getD 0 []).length

/-- `value.T` for a rank-2 array (the only transposition the setter keeps;
a rank-3 `.T` is discarded because the setter raises right afterwards). -/
def transpose : NDArr → NDArr
  | r2 m => r2 m.transpose
  | a => a

end NDArr

/-- The `audio_data` property setter (`@audio_data.setter`), for a non-`None`
value.  Checks, in source order: all values finite; transpose (with a
warning) when `ndim > 1` and `shape[0] > shape[1]`; reject `ndim > 2`;
promote `ndim < 2` to one channel; store, then
`set_active_region_to_default()`.  `vFloat` is the dtype of the assigned
array.  Returns the new state and whether the transposition warning was
emitted; on error the object is unchanged (python raises before any
assignment). -/
def audio_data_set (s : ASig σ) (value : NDArr) (vFloat : Bool) :
    Except String (ASig σ × Bool) :=
  if ¬ value.allFinite then
    .error "Not all values of audio_data are finite!"
  else
    let warned := 1 < value.ndim && value.shape1 < value.shape0
    let value := if warned then value.transpose else value
    if 2 < value.ndim then
      .error "self.audio_data cannot have more than 2 dimensions!"
    else
      let m : List (List (Option ℚ)) :=
        match value with
        | .r1 v => [v]
        | .r2 m => m
        | .r3 t => t.map (List.getD · 0 [])  -- unreachable: rejected above
      let d : List (List ℚ) := m.map (·.map (·.getD 0))
      .ok (set_active_region_to_default
            { s with audioData := some d, isFloat := vFloat }, warned)

/-- Assignment of an internally computed (hence finite, rank-2) array to
`self.audio_data`; wraps the setter.  Always succeeds (the finiteness check
passes and rank is 2), though it may transpose. -/
def setQ (s : ASig σ) (m : List (List ℚ)) (vFloat : Bool) : ASig σ :=
  match audio_data_set s (.r2 (m.map (·.map some))) vFloat with
  | .ok (s', _) => s'
  | .error _ => s

/-- `AudioSignal._verify_audio(other)`: channel counts equal, sample rates
equal, and `self`'s active region at default, in that order.  (A `None`
channel count compares unequal to an integer, as in python 2.) -/
def verify_audio (s o : ASig σ) : Option String :=
  if num_channels s ≠ num_channels o then
    some "Cannot do operation with two signals that have a different number of channels!"
  else if s.sampleRate ≠ o.sampleRate then
    some "Cannot do operation with two signals that have different sample rates!"
  else if ¬ active_region_is_default s then
    some "Cannot do operation while active region is not set as default!"
  else none

/-- `AudioSignal._verify_audio_arithmetic(other)`: `_verify_audio` plus
equal (active) signal lengths. -/
def verify_audio_arithmetic (s o : ASig σ) : Option String :=
  match verify_audio s o with
  | some e => some e
  | none =>
    if signal_length s ≠ signal_length o then
      some "Cannot do arithmetic with signals of different length!"
    else none

/-- `np.max(np.abs(a))` over a 2-D array; raises on an empty array. -/
def npMaxAbs (m : List (List ℚ)) : Except String ℚ :=
  match (m.flatMap (·.map abs)).max? with
  | some q => .ok q
  | none => .error "zero-size array to reduction operation maximum"

/-- `AudioSignal.peak_normalize(overwrite=True)`: take the maximum absolute
value of the active view; only when it exceeds `1.0`, divide by it (this
converts to floats) and store through the setter.  Returns the state after
the call and an error, if any. -/
def peak_normalize (s : ASig σ) : ASig σ × Option String :=
  match audio_data s with
  | none => (s, some "unsupported operand")  -- np.abs(None) raises
  | some view =>
    match npMaxAbs view with
    | .error e => (s, some e)
    | .ok mx =>
      if 1 < mx then
        (setQ s (view.map (·.map (· / mx))) true, none)
      else (s, none)

/-- `AudioSignal.apply_gain(value)`:
`self.audio_data = self.audio_data * value` — reads the active view,
multiplies, and assigns through the setter (no active-region check). -/
def apply_gain (s : ASig σ) (value : ℚ) : ASig σ × Option String :=
  match audio_data s with
  | none => (s, some "unsupported operand")  -- None * value raises
  | some view => (setQ s (view.map (·.map (· * value))) s.isFloat, none)

/-- `AudioSignal.add(other)`: `_verify_audio_arithmetic`, then a deep copy
of `self` whose `audio_data` is the element-wise sum of the two active
views.  Returns a new object; neither operand is modified (the source deep
copies). -/
def add (s o : ASig σ) : Except String (ASig σ) :=
  match verify_audio_arithmetic s o with
  | some e => .error e
  | none =>
    match audio_data s, audio_data o with
    | some vs, some vo =>
      .ok (setQ s (vs.zipWith (·.zipWith (· + ·) ·) vo) (s.isFloat || o.isFloat))
    | _, _ => .error "unsupported operand"  -- None + array raises

/-- `AudioSignal.subtract(other)`: deep-copies `other`, multiplies the copy
by `-1` (`apply_gain`), and adds it to `self`. -/
def subtract (s o : ASig σ) : Except String (ASig σ) :=
  match apply_gain o (-1) with
  | (o', none) => add s o'
  | (_, some e) => .error e

/-- `AudioSignal.concat(other)`: `_verify_audio`, then concatenate the
active views along the sample axis and assign through the setter. -/
def concat (s o : ASig σ) : ASig σ × Option String :=
  match verify_audio s o with
  | some e => (s, some e)
  | none =>
    match audio_data s, audio_data o with
    | some vs, some vo => (setQ s (vs.zipWith (· ++ ·) vo) (s.isFloat || o.isFloat), none)
    | _, _ => (s, some "unsupported operand")

/-- `AudioSignal.truncate_samples(n_samples)`: reject
`n_samples > signal_length`, then reject a non-default active region, then
keep the first `n_samples` samples.  (`n_samples` arrives as a float when
called from `truncate_seconds`; a non-integer slice index is floored, as
legacy numpy did.) -/
def truncate_samples (s : ASig σ) (nSamples : ℚ) : ASig σ × Option String :=
  match audio_data s with
  | none => (s, some "unsupported operand")
  | some view =>
    if (rowLen view : ℚ) < nSamples then
      (s, some "n_samples must be less than self.signal_length!")
    else if ¬ active_region_is_default s then
      (s, some "Cannot truncate while active region is not set as default!")
    else
      (setQ s (view.map (·.take (⌊nSamples⌋).toNat)) s.isFloat, none)

/-- `AudioSignal.truncate_seconds(n_seconds)`: reject
`n_seconds > signal_duration`, then reject a non-default active region,
then `truncate_samples(n_seconds * sample_rate)`. -/
def truncate_seconds (s : ASig σ) (nSeconds : ℚ) : ASig σ × Option String :=
  match signal_duration s with
  | none => (s, some "unsupported operand")
  | some dur =>
    if dur < nSeconds then
      (s, some "n_seconds must be shorter than self.signal_duration!")
    else if ¬ active_region_is_default s then
      (s, some "Cannot truncate while active region is not set as default!")
    else truncate_samples s (nSeconds * s.sampleRate)

/-- `AudioSignal.crop_signal(before, after)`: reject a non-default active
region, then slice `[:, before : num_samples - after]` and reset the active
region. -/
def crop_signal (s : ASig σ) (before after : ℕ) : ASig σ × Option String :=
  if ¬ active_region_is_default s then
    (s, some "Cannot crop signal while active region is not set as default!")
  else
    match audio_data s with
    | none => (s, some "unsupported operand")
    | some view =>
      let numSamples := rowLen view
      (set_active_region_to_default
        (setQ s (view.map (pySlice (before : ℤ) ((numSamples : ℤ) - (after : ℤ))))
          s.isFloat), none)

/-- `AudioSignal._verify_get_channel(n)` followed by row extraction
(`utils._get_axis(self.audio_data, CHAN_INDEX, n)`);
raises unless `0 <= n < num_channels`. -/
def get_channel (s : ASig σ) (n : ℤ) : Except String (List ℚ) :=
  match num_channels s, audio_data s with
  | some c, some view =>
    if (c : ℤ) ≤ n then
      .error "Cannot get channel when this object only has fewer channels!"
    else if n < 0 then
      .error "Cannot get negative channel. This will cause unexpected results"
    else .ok (view.getD n.toNat [])
  | _, _ => .error "no audio data"

/-- The loop body of `AudioSignal.zero_pad`: for each channel index in the
range computed once at entry, extract that channel from the *current*
object and assign its padded version back (which collapses the object to a
single channel after the first iteration). -/
def zero_pad_loop (s : ASig σ) (before after : ℕ) :
    List ℕ → ASig σ × Option String
  | [] => (s, none)
  | ch :: rest =>
    match get_channel s (ch : ℤ) with
    | .error e => (s, some e)
    | .ok row =>
      zero_pad_loop
        (setQ s [List.replicate before 0 ++ row ++ List.replicate after 0]
          s.isFloat)
        before after rest

/-- `AudioSignal.zero_pad(before, after)`: reject a non-default active
region, then loop `for ch in range(self.num_channels)` assigning
`np.lib.pad(self.get_channel(ch), (before, after), 'constant')` to
`self.audio_data` each time. -/
def zero_pad (s : ASig σ) (before after : ℕ) : ASig σ × Option String :=
  if ¬ active_region_is_default s then
    (s, some "Cannot zero-pad while active region is not set as default!")
  else
    match num_channels s with
    | none => (s, some "range of None")
    | some c => zero_pad_loop s before after (List.range c)

/-- Modelled from the spec: `constants.DEFAULT_BIT_DEPTH` is not under
`src/`; `write_audio_to_file` pairs `2 ** (DEFAULT_BIT_DEPTH - 1)` with an
`'int16'` cast and `load_audio_from_array` divides by the `int16` maximum,
so the default bit depth is 16. -/
def DEFAULT_BIT_DEPTH : ℕ := 16

/-- Truncation of a rational toward zero, as a C float-to-int cast does. -/
def ratTrunc (q : ℚ) : ℤ := Int.tdiv q.num (q.den : ℤ)

/-- `astype('int<b>')`: truncate toward zero and wrap into the signed
`b`-bit range (numpy reduces an out-of-range float through the machine
integer modulo `2 ^ b`). -/
def toSignedInt (b : ℕ) (q : ℚ) : ℤ :=
  let r := (ratTrunc q).emod (2 ^ b)
  if 2 ^ (b - 1) ≤ r then r - 2 ^ b else r

/-- `AudioSignal.audio_data_as_ints(bit_depth)`: reject bit depths outside
`[8, 16, 24, 32]`; otherwise multiply the active view by
`2 ** (constants.DEFAULT_BIT_DEPTH - 1)` and cast to `'int' + str(bit_depth)`.
(numpy has no 24-bit integer dtype, so `astype('int24')` itself raises.) -/
def audio_data_as_ints (s : ASig σ) (bitDepth : ℕ) :
    Except String (List (List ℤ)) :=
  if bitDepth ∉ [8, 16, 24, 32] then
    .error "Cannot convert self.audio_data to integer array of this bit depth"
  else if bitDepth = 24 then
    .error "data type 'int24' not understood"
  else
    match audio_data s with
    | none => .error "unsupported operand"
    | some view =>
      .ok (view.map (·.map (fun q =>
        toSignedInt bitDepth (q * 2 ^ (DEFAULT_BIT_DEPTH - 1)))))

/-- A complex scalar with rational parts (models the complex entries of a
time-frequency array where they are needed). -/
structure QC where
  re : ℚ
  im : ℚ
  deriving Repr, DecidableEq

/-- Complex multiplication on `QC`. -/
def QC.mul (a b : QC) : QC :=
  ⟨a.re * b.re - a.im * b.im, a.re * b.im + a.im * b.re⟩

/-- numpy `shape` of a (rectangular) 3-D nested list. -/
def shape3 (t : List (List (List α))) : ℕ × ℕ × ℕ :=
  (t.length, (t.getD 0 []).length, ((t.getD 0 []).getD 0 []).length)

/-- `AudioSignal.make_copy_with_stft_data(stft_data, verbose=False)`: a deep
copy whose `stft_data` is the input and whose `audio_data` is `None`
(assigning `None` does not touch the active region).  The `stft_data`
setter's rank checks are vacuous for a well-formed 3-D input. -/
def make_copy_with_stft_data (s : ASig σ) (d : List (List (List σ))) : ASig σ :=
  { s with stftData := some d, audioData := none }

/-- `AudioSignal.apply_mask(mask)`.  Modelled from the spec: the
`MaskBase` class (`separation.masks`) is not under `src/`; per the spec a
mask is "a real- or complex-valued array with the exact shape of a
TimeFrequencyArray", so the mask is modelled as its array and `mask.shape`
as that array's shape.  Shape mismatch is a hard error; otherwise the
masked product is placed in a new object via `make_copy_with_stft_data`. -/
def apply_mask (s : ASig QC) (mask : List (List (List QC))) :
    Except String (ASig QC) :=
  match s.stftData with
  | none => .error "'NoneType' object has no attribute 'shape'"
  | some st =>
    if shape3 mask ≠ shape3 st then
      .error "Input mask and self.stft_data are not the same shape!"
    else
      .ok (make_copy_with_stft_data s
        (st.zipWith (·.zipWith (·.zipWith QC.mul ·) ·) mask))

/-! ## The STFT engine

Modelled from the spec: `stft_utils.e_stft` and `stft_utils.e_istft` are
not under `src/`; they are modelled from spec §4.2/§4.3.  The discrete
Fourier transform is parametrised by the scalar field `F` and a root of
unity `ω` standing for `exp(-2πi/n)` (for `n ≤ 2` this root is real and
the complex DFT of real input is real, so `F = ℚ` instantiates the
complex DFT exactly).  The reflection halving of §4.2 step 4 and its
§4.3 step 1 reconstruction are omitted: the spec states the inverse first
rebuilds the full spectrum by conjugate symmetry, so the two cancel in the
forward∘inverse composition studied here. -/

section Stft

variable {F : Type} [Field F] [DecidableEq F]

/-- Discrete Fourier transform with root `ω` (= `exp(-2πi/n)` in the
source): `X_k = Σ_j x_j ω^(jk)` (spec §4.2 step 3). -/
def dft (ω : F) (v : List F) : List F :=
  (List.range v.length).map fun k =>
    ∑ j ∈ Finset.range v.length, v.getD j 0 * ω ^ (j * k)

/-- Inverse discrete Fourier transform with `ωinv = ω⁻¹` and
`ninv = 1/n`: `x_j = (1/n) Σ_k X_k ω^(-jk)` (spec §4.3 step 2). -/
def idft (ωinv ninv : F) (v : List F) : List F :=
  (List.range v.length).map fun j =>
    ninv * ∑ k ∈ Finset.range v.length, v.getD k 0 * ωinv ^ (j * k)

/-- Number of frames: slide a window of `wl` samples at stride `hp`
starting at sample 0, the final frame may extend past the signal end
(spec §4.2 step 1), so enough frames are taken to cover all `L` samples. -/
def numFrames (L wl hp : ℕ) : ℕ :=
  if L ≤ wl then 1 else (L - wl + hp - 1) / hp + 1

/-- Frame `k` of the signal, windowed: `w[j] * x[k*hp + j]`, reading past
the signal end as zero (spec §4.2 steps 1-2). -/
def windowedFrame (x w : List F) (wl hp k : ℕ) : List F :=
  (List.range wl).map fun j => w.getD j 0 * x.getD (k * hp + j) 0

/-- Modelled from the spec: `stft_utils.e_stft` — the DFT of every
windowed frame (with `fftBins = windowLength`, the default). -/
def e_stft (x : List F) (wl hp : ℕ) (w : List F) (ω : F) : List (List F) :=
  (List.range (numFrames x.length wl hp)).map fun k =>
    dft ω (windowedFrame x w wl hp k)

/-- Modelled from the spec: `stft_utils.e_istft` — inverse-transform every
frame, overlap-add frame `k` starting at sample `k*hp` (spec §4.3 step 3),
and divide each output sample by the accumulated sum of squared window
values there, falling back to 1 where that accumulation is zero
(spec §4.3 step 4). -/
def e_istft (S : List (List F)) (wl hp : ℕ) (w : List F)
    (ωinv ninv : F) : List F :=
  let T := S.length
  (List.range ((T - 1) * hp + wl)).map fun i =>
    let acc := ∑ k ∈ Finset.range T,
      if k * hp ≤ i ∧ i < k * hp + wl then
        (idft ωinv ninv (S.getD k [])).getD (i - k * hp) 0
      else 0
    let norm := ∑ k ∈ Finset.range T,
      if k * hp ≤ i ∧ i < k * hp + wl then (w.getD (i - k * hp) 0) ^ 2
      else 0
    acc / (if norm = 0 then 1 else norm)

/-- The rectangular window of length `wl`. -/
def rectWindow (wl : ℕ) : List F := List.replicate wl 1

/-- The COLA (constant overlap-add) property of a window/hop pair: the
summed, shifted copies of the window equal a constant (spec glossary) —
equivalently, every residue class modulo the hop has the same window sum. -/
def isCOLA (w : List F) (hp : ℕ) : Prop :=
  ∃ c, ∀ r < hp,
    ∑ k ∈ Finset.range (w.length / hp + 1), w.getD (r + k * hp) 0 = c

/-- Agreement of two signals within an absolute tolerance, sample by
sample, with equal lengths (`np.allclose` plus the length check of
`do_stft_istft_assert_allclose`). -/
def withinTol (a b : List ℚ) (t : ℚ) : Prop :=
  a.length = b.length ∧ ∀ i < a.length, |a.getD i 0 - b.getD i 0| ≤ t

end Stft

/-- The truncation step of `AudioSignal.istft` (source lines 696-702):
default `truncate_to_length` to the known signal length, then, when
positive, keep only the first `truncate_to_length` samples of every
channel.  Nothing is ever zero-padded. -/
def istft_truncate (sig : List (List ℚ)) (truncateToLength : Option ℤ)
    (sigLen : Option ℕ) : List (List ℚ) :=
  let t : Option ℤ :=
    match truncateToLength with
    | some v => some v
    | none =>
      match sigLen with
      | some l => some ((l : ℕ) : ℤ)
      | none => none
  match t with
  | some v => if 0 < v then sig.map (·.take v.toNat) else sig
  | none => sig

/-- Total element count of a stored time-frequency array (`.size`). -/
def stftSize (st : List (List (List α))) : ℕ :=
  (st.map (fun c => (c.map List.length).sum)).sum

/-- `AudioSignal.istft(...)`, the returned reconstruction: raises without
(non-empty) `stft_data`; otherwise runs `e_istft` per channel
(`_do_istft`) and truncates per `istft_truncate`.  (The `np.expand_dims`
on a 1-D result is unreachable for a non-empty channel list.) -/
def audioSignal_istft_calc (s : ASig ℚ) (wl hp : ℕ) (w : List ℚ)
    (ωinv ninv : ℚ) (truncateToLength : Option ℤ) :
    Except String (List (List ℚ)) :=
  match s.stftData with
  | none => .error "Cannot do inverse STFT without self.stft_data!"
  | some st =>
    if stftSize st = 0 then
      .error "Cannot do inverse STFT without self.stft_data!"
    else
      .ok (istft_truncate (st.map fun ch => e_istft ch wl hp w ωinv ninv)
        truncateToLength (signal_length s))

/-- Strip the finiteness markers of a checked 2-D array. -/
def stripFin (m : List (List (Option ℚ))) : List (List ℚ) :=
  m.map (·.map (·.getD 0))

/-- A populated `AudioSignal` as `load_audio_from_array` leaves it: stored
data, dtype flag, sample rate 44100, default active region, no stft. -/
def mkSig (d : List (List ℚ)) (fl : Bool) : ASig ℚ :=
  { audioData := some d, isFloat := fl, sampleRate := 44100,
    activeStart := some 0, activeEnd := some (rowLen d), stftData := none }

end Nussl

namespace Nussl

/-! ## Theorems -/

/-- **C3** (counterexample).  The claim says `set_active_region` always
re-establishes `0 ≤ activeStart ≤ activeEnd ≤ length`.  On the stored
signal `[[1,2,3]]`, `set_active_region(10, -5)` (it never raises) leaves
`activeStart = 10` and `activeEnd = -5`, so `activeStart ≤ activeEnd` and
`0 ≤ activeEnd` both fail: `start` is not clamped above and `end` is not
clamped below. -/
theorem set_active_region_invariant_counterexample :
    (set_active_region (mkSig [[1, 2, 3]] true) 10 (-5)).activeStart = some 10 ∧
    (set_active_region (mkSig [[1, 2, 3]] true) 10 (-5)).activeEnd = some (-5) ∧
    ¬ ((10 : ℤ) ≤ -5) ∧ ¬ ((0 : ℤ) ≤ -5) := by
  refine ⟨rfl, ?_, by decide, by decide⟩
  rfl

/-- **C3** (amended).  `set_active_region(start, end)` never raises and
touches no sample data; it clamps `start` below at `0` and `end` above at
the full stored length, so afterwards `0 ≤ activeStart` and
`activeEnd ≤ length` hold — but `start` is not clamped above and `end` is
not clamped below, so `activeStart ≤ activeEnd` (and `0 ≤ activeEnd`) can
fail. -/
theorem set_active_region_spec {σ : Type} (s : ASig σ)
    (d : List (List ℚ)) (hd : s.audioData = some d) (start endv : ℤ) :
    (set_active_region s start endv).audioData = s.audioData ∧
    (set_active_region s start endv).stftData = s.stftData ∧
    (set_active_region s start endv).activeStart = some (max start 0) ∧
    (set_active_region s start endv).activeEnd =
      some (min endv ((rowLen d : ℕ) : ℤ)) ∧
    (0 : ℤ) ≤ max start 0 ∧
    min endv ((rowLen d : ℕ) : ℤ) ≤ ((rowLen d : ℕ) : ℤ) := by
  unfold set_active_region signalLengthFull
  rw [hd]
  refine ⟨rfl, rfl, ?_, ?_, le_max_right _ _, min_le_right _ _⟩
  · rcases le_or_lt 0 start with h | h
    · rw [if_pos h, max_eq_left h]
    · rw [if_neg (not_le.mpr h), max_eq_right h.le]
  · show some (if endv < ((rowLen d : ℕ) : ℤ) then endv else _) = _
    congr 1
    rcases lt_or_le endv ((rowLen d : ℕ) : ℤ) with h | h
    · rw [if_pos h, min_eq_left h.le]
    · rw [if_neg (not_lt.mpr h), min_eq_right h]

/-- **C3** (witness for the amended theorem). -/
theorem set_active_region_spec_witness :
    (set_active_region (mkSig [[1, 2, 3]] true) (-7) 2).audioData =
      some [[1, 2, 3]] ∧
    (set_active_region (mkSig [[1, 2, 3]] true) (-7) 2).activeStart = some 0 ∧
    (set_active_region (mkSig [[1, 2, 3]] true) (-7) 2).activeEnd = some 2 := by
  have h := set_active_region_spec (mkSig [[1, 2, 3]] true) [[1, 2, 3]] rfl
    (-7) 2
  refine ⟨h.1, ?_, ?_⟩
  · rw [h.2.2.1]; rfl
  · rw [h.2.2.2.1]; rfl

/-- **C9** (the code at the failing input).  The claim says the integer
conversion multiplies by `2 ^ (bitDepth - 1)`; the code multiplies by
`2 ^ (constants.DEFAULT_BIT_DEPTH - 1) = 2 ^ 15` for *every* requested
depth and only the cast uses `bitDepth`.  On samples `[[1/2]]` with
`bit_depth = 8` the code yields `trunc(2^14) mod 2^8 = 0`, while the
claim's formula `1/2 * 2^(8-1)` yields `64`. -/
theorem audio_data_as_ints_failing_input :
    (audio_data_as_ints (mkSig [[(1 : ℚ)/2]] true) 8).toOption = some [[0]] ∧
    ratTrunc ((1 : ℚ)/2 * 2 ^ (8 - 1)) = 64 ∧ (0 : ℤ) ≠ 64 := by
  have hnum : ∀ n : ℕ, ratTrunc ((n : ℚ)) = (n : ℤ) := by
    intro n
    unfold ratTrunc
    rw [Rat.num_natCast, Rat.den_natCast]
    exact Int.tdiv_one _
  have h1 : (1 : ℚ)/2 * 2 ^ (DEFAULT_BIT_DEPTH - 1) = ((16384 : ℕ) : ℚ) := by
    norm_num [DEFAULT_BIT_DEPTH]
  have h2 : (1 : ℚ)/2 * 2 ^ (8 - 1) = ((64 : ℕ) : ℚ) := by norm_num
  refine ⟨?_, ?_, by decide⟩
  · have hv : audio_data (mkSig [[(1 : ℚ)/2]] true) = some [[(1 : ℚ)/2]] := rfl
    unfold audio_data_as_ints
    rw [if_neg (by decide), if_neg (by decide), hv]
    simp only [List.map, h1]
    rw [show toSignedInt 8 (((16384 : ℕ) : ℚ)) = 0 by
      unfold toSignedInt
      rw [hnum]
      decide]
    rfl
  · rw [h2, hnum]
    rfl

/-- **C8**.  The `audio_data` setter: rejects non-finite values; rejects
rank > 2; promotes a rank-1 array to a single channel; transposes exactly
when the first axis is larger than the second, and then sets the returned
warning flag (never silently); in every accepted case the stored array is
rank 2 (a list of channel rows by construction) and the active region is
reset to the full stored length (`activeStart = 0`,
`activeEnd = rowLen` of the stored array). -/
theorem audio_data_setter_spec {σ : Type} (s : ASig σ) (fl : Bool) :
    (∀ value : NDArr, value.allFinite = false →
      audio_data_set s value fl =
        .error "Not all values of audio_data are finite!") ∧
    (∀ t, (NDArr.r3 t).allFinite = true →
      audio_data_set s (.r3 t) fl =
        .error "self.audio_data cannot have more than 2 dimensions!") ∧
    (∀ v, (NDArr.r1 v).allFinite = true →
      audio_data_set s (.r1 v) fl =
        .ok ({ s with
               audioData := some [v.map (·.getD 0)],
               isFloat := fl,
               activeStart := some 0,
               activeEnd := some (rowLen [v.map (·.getD 0)] : ℤ) }, false)) ∧
    (∀ m, (NDArr.r2 m).allFinite = true →
      (m.getD 0 []).length < m.length →
      audio_data_set s (.r2 m) fl =
        .ok ({ s with
               audioData := some (stripFin m.transpose),
               isFloat := fl,
               activeStart := some 0,
               activeEnd := some (rowLen (stripFin m.transpose) : ℤ) }, true)) ∧
    (∀ m, (NDArr.r2 m).allFinite = true →
      ¬ (m.getD 0 []).length < m.length →
      audio_data_set s (.r2 m) fl =
        .ok ({ s with
               audioData := some (stripFin m),
               isFloat := fl,
               activeStart := some 0,
               activeEnd := some (rowLen (stripFin m) : ℤ) }, false)) := by
  refine ⟨?_, ?_, ?_, ?_, ?_⟩
  · intro value hfin
    unfold audio_data_set
    rw [if_pos]
    simp [hfin]
  · intro t hfin
    unfold audio_data_set
    rw [if_neg (by simp [hfin])]
    have : ((if (1 < (NDArr.r3 t).ndim && (NDArr.r3 t).shape1 < (NDArr.r3 t).shape0)
        then (NDArr.r3 t).transpose else (NDArr.r3 t)) : NDArr).ndim = 3 := by
      rcases Bool.eq_false_or_eq_true
          (1 < (NDArr.r3 t).ndim && (NDArr.r3 t).shape1 < (NDArr.r3 t).shape0) with h | h
      · rw [h]; rfl
      · rw [h]; rfl
    rw [if_pos]
    omega
  · intro v hfin
    unfold audio_data_set
    rw [if_neg (by simp [hfin])]
    have hw : (1 < (NDArr.r1 v).ndim && (NDArr.r1 v).shape1 < (NDArr.r1 v).shape0)
        = false := by
      simp [NDArr.ndim]
    rw [hw]
    rfl
  · intro m hfin hc
    unfold audio_data_set
    rw [if_neg (by simp [hfin])]
    have hw : (1 < (NDArr.r2 m).ndim && (NDArr.r2 m).shape1 < (NDArr.r2 m).shape0)
        = true := by
      simp only [NDArr.ndim, NDArr.shape0, NDArr.shape1]
      rw [List.getD, List.get?_eq_getElem?] at hc
      simp [hc]
    rw [hw]
    rfl
  · intro m hfin hc
    unfold audio_data_set
    rw [if_neg (by simp [hfin])]
    have hw : (1 < (NDArr.r2 m).ndim && (NDArr.r2 m).shape1 < (NDArr.r2 m).shape0)
        = false := by
      simp only [NDArr.ndim, NDArr.shape0, NDArr.shape1]
      rw [List.getD, List.get?_eq_getElem?] at hc
      simp [Nat.le_of_not_lt hc]
    rw [hw]
    rfl

/-- **C8** (witness): a non-finite entry is rejected; a tall 3×1 array is
transposed to 1×3 with the warning flag set and the active region reset. -/
theorem audio_data_setter_spec_witness :
    audio_data_set (mkSig [[1]] true) (.r1 [some 1, none]) false =
      .error "Not all values of audio_data are finite!" ∧
    audio_data_set (mkSig [[1]] true) (.r2 [[some 5], [some 6], [some 7]]) true =
      .ok ({ mkSig [[1]] true with
             audioData := some [[5, 6, 7]],
             isFloat := true,
             activeStart := some 0,
             activeEnd := some 3 }, true) := by
  constructor
  · exact (audio_data_setter_spec (mkSig [[1]] true) false).1 _ (by decide)
  · have h := (audio_data_setter_spec (mkSig [[1]] true) true).2.2.2.1
      [[some 5], [some 6], [some 7]] (by decide) (by decide)
    rw [h]
    rfl

/-- `_verify_audio` always reports an error (some check fires) when the
receiver's active region is not at default. -/
theorem verify_audio_isSome_of_nondefault {σ : Type} (s o : ASig σ)
    (hnd : active_region_is_default s = false) :
    (verify_audio s o).isSome := by
  unfold verify_audio
  split
  · rfl
  · split
    · rfl
    · rw [if_pos (by simp [hnd])]
      rfl

/-- **C2** (counterexample).  The claim says *all nine* mutators reject a
narrowed active region.  On `[[1,2,3]]` narrowed to `[0,2)`, `apply_gain 2`
raises nothing and replaces the stored samples with the doubled active
view `[[2,4]]` (silently discarding the out-of-view sample `3`), and
`peak_normalize` raises nothing either: neither checks the active
region. -/
theorem apply_gain_nondefault_counterexample :
    active_region_is_default
      (set_active_region (mkSig [[1, 2, 3]] true) 0 2) = false ∧
    (apply_gain (set_active_region (mkSig [[1, 2, 3]] true) 0 2) 2).2 = none ∧
    (apply_gain (set_active_region (mkSig [[1, 2, 3]] true) 0 2) 2).1.audioData
      = some [[2, 4]] ∧
    (set_active_region (mkSig [[1, 2, 3]] true) 0 2).audioData
      = some [[1, 2, 3]] ∧
    (peak_normalize (set_active_region (mkSig [[1, 2, 3]] true) 0 2)).2
      = none := by
  refine ⟨rfl, rfl, ?_, rfl, rfl⟩
  have h1 : audio_data (set_active_region (mkSig [[1, 2, 3]] true) 0 2) =
      some [[1, 2]] := by rfl
  unfold apply_gain
  rw [h1]
  have h2 : ([[1, 2]] : List (List ℚ)).map (·.map (· * 2)) = [[2, 4]] := by
    simp
    norm_num
  dsimp only
  rw [h2]
  rfl

/-- **C2** (amended).  With a narrowed (non-default) active region, the
mutators `concat`, `truncate_samples`, `truncate_seconds`, `crop_signal`,
`zero_pad`, `add` and `subtract` all reject the operation with an error
and leave the object unchanged (`add`/`subtract` build new objects and
never mutate their operands anyway) — but `peak_normalize` and
`apply_gain` perform no such check (see the counterexample). -/
theorem nondefault_region_mutators_reject {σ : Type} (s o : ASig σ)
    (d e : List (List ℚ)) (hd : s.audioData = some d)
    (he : o.audioData = some e)
    (hnd : active_region_is_default s = false)
    (n q : ℚ) (b1 a1 b2 a2 : ℕ) :
    (concat s o).1 = s ∧ (concat s o).2.isSome ∧
    (truncate_samples s n).1 = s ∧ (truncate_samples s n).2.isSome ∧
    (truncate_seconds s q).1 = s ∧ (truncate_seconds s q).2.isSome ∧
    (crop_signal s b1 a1).1 = s ∧ (crop_signal s b1 a1).2.isSome ∧
    (zero_pad s b2 a2).1 = s ∧ (zero_pad s b2 a2).2.isSome ∧
    (add s o).toOption = none ∧ (subtract s o).toOption = none := by
  have hv : ∀ o' : ASig σ, (verify_audio s o').isSome :=
    fun o' => verify_audio_isSome_of_nondefault s o' hnd
  have hconcat : (concat s o).1 = s ∧ (concat s o).2.isSome := by
    unfold concat
    rcases ho : verify_audio s o with _ | e0
    · exact absurd (hv o) (by rw [ho]; simp)
    · exact ⟨rfl, rfl⟩
  have hview : ∃ v, audio_data s = some v := by
    unfold audio_data
    rw [hd]
    exact ⟨_, rfl⟩
  obtain ⟨v, hvw⟩ := hview
  have htrunc : ∀ n0 : ℚ, (truncate_samples s n0).1 = s ∧
      (truncate_samples s n0).2.isSome := by
    intro n0
    unfold truncate_samples
    rw [hvw]
    dsimp only
    rcases lt_or_le (rowLen v : ℚ) n0 with h | h
    · rw [if_pos h]
      exact ⟨rfl, rfl⟩
    · rw [if_neg (not_lt.mpr h), if_pos (by simp [hnd])]
      exact ⟨rfl, rfl⟩
  have hdur : signal_duration s = some ((rowLen v : ℚ) / s.sampleRate) := by
    unfold signal_duration signal_length
    rw [hvw]
    rfl
  have hadd : (add s o).toOption = none := by
    unfold add verify_audio_arithmetic
    rcases ho : verify_audio s o with _ | e0
    · exact absurd (hv o) (by rw [ho]; simp)
    · rfl
  refine ⟨hconcat.1, hconcat.2, (htrunc n).1, (htrunc n).2, ?_, ?_, ?_, ?_,
    ?_, ?_, hadd, ?_⟩
  · unfold truncate_seconds
    rw [hdur]
    dsimp only
    rcases lt_or_le ((rowLen v : ℚ) / s.sampleRate) q with h | h
    · rw [if_pos h]
    · rw [if_neg (not_lt.mpr h), if_pos (by simp [hnd])]
  · unfold truncate_seconds
    rw [hdur]
    dsimp only
    rcases lt_or_le ((rowLen v : ℚ) / s.sampleRate) q with h | h
    · rw [if_pos h]
      rfl
    · rw [if_neg (not_lt.mpr h), if_pos (by simp [hnd])]
      rfl
  · unfold crop_signal
    rw [if_pos (by simp [hnd])]
  · unfold crop_signal
    rw [if_pos (by simp [hnd])]
    rfl
  · unfold zero_pad
    rw [if_pos (by simp [hnd])]
  · unfold zero_pad
    rw [if_pos (by simp [hnd])]
    rfl
  · unfold subtract apply_gain
    have hoe : ∃ w, audio_data o = some w := by
      unfold audio_data
      rw [he]
      exact ⟨_, rfl⟩
    obtain ⟨w, hw⟩ := hoe
    rw [hw]
    show (match verify_audio_arithmetic s _ with
      | some e1 => Except.error e1
      | none => _ : Except String (ASig σ)).toOption = none
    unfold verify_audio_arithmetic
    rcases ho : verify_audio s _ with _ | e0
    · exact absurd (hv _) (by rw [ho]; simp)
    · rfl

/-- **C2** (witness for the amended theorem): a signal narrowed to its
first two samples rejects the checked mutators unchanged. -/
theorem nondefault_region_mutators_reject_witness :
    (concat (set_active_region (mkSig [[1, 2, 3]] true) 0 2)
      (mkSig [[4, 5]] true)).2.isSome ∧
    (truncate_samples (set_active_region (mkSig [[1, 2, 3]] true) 0 2)
      1).2.isSome ∧
    (zero_pad (set_active_region (mkSig [[1, 2, 3]] true) 0 2)
      1 1).2.isSome ∧
    (add (set_active_region (mkSig [[1, 2, 3]] true) 0 2)
      (mkSig [[4, 5]] true)).toOption = none := by
  have h := nondefault_region_mutators_reject
    (set_active_region (mkSig [[1, 2, 3]] true) 0 2) (mkSig [[4, 5]] true)
    [[1, 2, 3]] [[4, 5]] rfl rfl (by decide) 1 1 1 1 1 1
  exact ⟨h.2.1, h.2.2.2.1, h.2.2.2.2.2.2.2.2.2.1, h.2.2.2.2.2.2.2.2.2.2.1⟩

/-- With audio data present, a default active region, and rectangular rows,
the `audio_data` view is the stored array itself. -/
theorem audio_data_default {σ : Type} (s : ASig σ) (d : List (List ℚ))
    (hd : s.audioData = some d)
    (hdef : active_region_is_default s = true)
    (hrect : ∀ r ∈ d, r.length = rowLen d) :
    audio_data s = some d := by
  unfold active_region_is_default at hdef
  rw [Bool.and_eq_true] at hdef
  obtain ⟨h1, h2⟩ := hdef
  have hstart : s.activeStart = some 0 := by
    simpa using h1
  have hend : s.activeEnd = some ((rowLen d : ℕ) : ℤ) := by
    rw [signalLengthFull, hd] at h2
    rcases he : s.activeEnd with _ | e0
    · rw [he] at h2
      exact Bool.noConfusion h2
    · rw [he] at h2
      exact congrArg some (eq_of_beq h2)
  unfold audio_data
  rw [hd, hstart, hend]
  dsimp only
  rw [if_neg (lt_irrefl _), if_neg (lt_irrefl _)]
  congr 1
  have hid : ∀ r ∈ d, pySlice 0 ((rowLen d : ℕ) : ℤ) r = r := by
    intro r hr
    unfold pySlice pyIdx
    rw [if_neg (by omega), if_neg (by omega)]
    simp [hrect r hr]
  calc d.map (pySlice 0 ((rowLen d : ℕ) : ℤ))
      = d.map id := List.map_congr_left hid
    _ = d := List.map_id d

/-- Assigning an internally computed matrix whose channel count does not
exceed its row length stores it verbatim (no transposition, no error) and
resets the active region to the full new length. -/
theorem audio_data_set_r2_ok {σ : Type} (s : ASig σ) (M : List (List ℚ))
    (fl : Bool) (hwf : ¬ (M.getD 0 []).length < M.length) :
    audio_data_set s (.r2 (M.map (·.map some))) fl =
      .ok ({ s with
             audioData := some M,
             isFloat := fl,
             activeStart := some 0,
             activeEnd := some ((rowLen M : ℕ) : ℤ) }, false) := by
  have hfin : (NDArr.r2 (M.map (·.map some))).allFinite = true := by
    simp [NDArr.allFinite, List.all_eq_true]
  have hsh : (NDArr.r2 (M.map (·.map some))).shape1 =
      (M.getD 0 []).length := by
    rcases M with _ | ⟨r, M'⟩
    · rfl
    · simp [NDArr.shape1]
  have hw : (1 < (NDArr.r2 (M.map (·.map some))).ndim &&
      (NDArr.r2 (M.map (·.map some))).shape1 <
        (NDArr.r2 (M.map (·.map some))).shape0) = false := by
    rw [Bool.and_eq_false_iff]
    right
    rw [hsh]
    simp only [NDArr.shape0, List.length_map]
    simpa using hwf
  have hstrip : (M.map (·.map some)).map (·.map (·.getD 0)) = M := by
    rw [List.map_map]
    calc M.map ((·.map (·.getD 0)) ∘ (·.map some))
        = M.map id := by
          apply List.map_congr_left
          intro r _
          simp [Function.comp_def]
      _ = M := List.map_id M
  unfold audio_data_set
  rw [if_neg (by simp [hfin]), hw]
  show Except.ok (set_active_region_to_default
      { s with audioData := some ((M.map (·.map some)).map (·.map (·.getD 0))),
               isFloat := fl }, false) = _
  rw [hstrip]
  unfold set_active_region_to_default signalLengthFull
  rfl

/-- `setQ` under the same well-formedness condition. -/
theorem setQ_eq {σ : Type} (s : ASig σ) (M : List (List ℚ)) (fl : Bool)
    (hwf : ¬ (M.getD 0 []).length < M.length) :
    setQ s M fl =
      { s with
        audioData := some M,
        isFloat := fl,
        activeStart := some 0,
        activeEnd := some ((rowLen M : ℕ) : ℤ) } := by
  unfold setQ
  rw [audio_data_set_r2_ok s M fl hwf]

/-- Mapping a scalar function over every row preserves the row length. -/
theorem rowLen_map_rows (e : List (List ℚ)) (f : ℚ → ℚ) :
    rowLen (e.map (·.map f)) = rowLen e := by
  cases e
  · rfl
  · simp [rowLen]

/-- Row length of a row-wise `zipWith`. -/
theorem rowLen_zipWith (op : ℚ → ℚ → ℚ) (d e : List (List ℚ)) :
    rowLen (d.zipWith (·.zipWith op ·) e) = min (rowLen d) (rowLen e) := by
  cases d <;> cases e <;>
    simp [rowLen, List.length_zipWith]

/-- Element-wise addition against a `* (-1)` image is element-wise
subtraction (how `subtract` is built from `add` and `apply_gain`). -/
theorem zipWith_add_map_neg (d e : List (List ℚ)) :
    d.zipWith (·.zipWith (· + ·) ·) (e.map (·.map (· * (-1)))) =
      d.zipWith (·.zipWith (· - ·) ·) e := by
  have hrow : ∀ r1 r2 : List ℚ,
      r1.zipWith (· + ·) (r2.map (· * (-1))) = r1.zipWith (· - ·) r2 := by
    intro r1 r2
    rw [List.zipWith_map_right]
    rw [show (fun (a b : ℚ) => a + b * (-1)) = (fun a b => a - b) from
      funext fun a => funext fun b => by ring]
  rw [List.zipWith_map_right]
  rw [show (fun (r1 r2 : List ℚ) => r1.zipWith (· + ·) (r2.map (· * (-1)))) =
      (fun (r1 r2 : List ℚ) => r1.zipWith (· - ·) r2) from
    funext fun r1 => funext fun r2 => hrow r1 r2]

/-- **C4** (counterexample).  The claim says that, apart from mismatched
sample rate / channel count / length, `add` returns the element-wise sum.
Two signals with equal sample rates, channel counts and (active) lengths —
but with the receiver narrowed to `[0,2)` of `[[1,2,3]]` — are rejected by
`add` nonetheless: the active-region check fires even when every compared
property matches. -/
theorem add_equal_params_counterexample :
    num_channels (set_active_region (mkSig [[1, 2, 3]] true) 0 2) =
      num_channels (mkSig [[5, 6]] true) ∧
    (set_active_region (mkSig [[1, 2, 3]] true) 0 2).sampleRate =
      (mkSig [[5, 6]] true).sampleRate ∧
    signal_length (set_active_region (mkSig [[1, 2, 3]] true) 0 2) =
      signal_length (mkSig [[5, 6]] true) ∧
    (add (set_active_region (mkSig [[1, 2, 3]] true) 0 2)
      (mkSig [[5, 6]] true)).toOption = none := by
  exact ⟨rfl, rfl, rfl, rfl⟩

/-- **C4** (amended).  `add` and `subtract` raise whenever the operands
differ in sample rate, channel count, or signal length; when those agree
*and both operands' active regions are at default* (the counterexample
shows a narrowed receiver is rejected even with all three equal), they
return a new `AudioSignal` whose samples are the element-wise sum
(resp. difference) of the operands' samples, with the region reset on the
result; neither operand is modified (both operations deep-copy). -/
theorem add_subtract_spec {σ : Type} (s o : ASig σ) (d e : List (List ℚ))
    (hd : s.audioData = some d) (he : o.audioData = some e)
    (hrd : ∀ r ∈ d, r.length = rowLen d) (hre : ∀ r ∈ e, r.length = rowLen e)
    (hwd : d.length ≤ rowLen d) (hwe : e.length ≤ rowLen e)
    (hdefs : active_region_is_default s = true)
    (hdefo : active_region_is_default o = true) :
    ((d.length ≠ e.length ∨ s.sampleRate ≠ o.sampleRate ∨
        rowLen d ≠ rowLen e) →
      (add s o).toOption = none ∧ (subtract s o).toOption = none) ∧
    (d.length = e.length → s.sampleRate = o.sampleRate →
      rowLen d = rowLen e →
      add s o = .ok { s with
        audioData := some (d.zipWith (·.zipWith (· + ·) ·) e),
        isFloat := s.isFloat || o.isFloat,
        activeStart := some 0,
        activeEnd := some ((rowLen d : ℕ) : ℤ) } ∧
      subtract s o = .ok { s with
        audioData := some (d.zipWith (·.zipWith (· - ·) ·) e),
        isFloat := s.isFloat || o.isFloat,
        activeStart := some 0,
        activeEnd := some ((rowLen d : ℕ) : ℤ) }) := by
  have hvs : audio_data s = some d := audio_data_default s d hd hdefs hrd
  have hvo : audio_data o = some e := audio_data_default o e he hdefo hre
  have hns : num_channels s = some d.length := by
    unfold num_channels
    rw [hvs]
  have hno : num_channels o = some e.length := by
    unfold num_channels
    rw [hvo]
  have hls : signal_length s = some (rowLen d) := by
    unfold signal_length
    rw [hvs]
    rfl
  have hlo : signal_length o = some (rowLen e) := by
    unfold signal_length
    rw [hvo]
    rfl
  -- the negated deep copy of `o` built inside `subtract`
  have hrow_eneg : rowLen (e.map (·.map (· * (-1)))) = rowLen e :=
    rowLen_map_rows e _
  have hsetQo : setQ o (e.map (·.map (· * (-1)))) o.isFloat =
      { o with
        audioData := some (e.map (·.map (· * (-1)))),
        isFloat := o.isFloat,
        activeStart := some 0,
        activeEnd := some ((rowLen (e.map (·.map (· * (-1)))) : ℕ) : ℤ) } := by
    apply setQ_eq
    show ¬ rowLen (e.map (·.map (· * (-1)))) <
      (e.map (·.map (· * (-1)))).length
    rw [hrow_eneg, List.length_map]
    omega
  have hgain : apply_gain o (-1) =
      (setQ o (e.map (·.map (· * (-1)))) o.isFloat, none) := by
    unfold apply_gain
    rw [hvo]
  have ho'def : active_region_is_default
      (setQ o (e.map (·.map (· * (-1)))) o.isFloat) = true := by
    rw [hsetQo]
    unfold active_region_is_default signalLengthFull
    simp
  have hrect_eneg : ∀ r ∈ e.map (·.map (· * (-1))),
      r.length = rowLen (e.map (·.map (· * (-1)))) := by
    intro r hr
    obtain ⟨r0, hr0, hmap⟩ := List.mem_map.mp hr
    rw [← hmap, hrow_eneg]
    simpa using hre r0 hr0
  have hvo' : audio_data (setQ o (e.map (·.map (· * (-1)))) o.isFloat) =
      some (e.map (·.map (· * (-1)))) :=
    audio_data_default _ _ (by rw [hsetQo]) ho'def hrect_eneg
  have hno' : num_channels (setQ o (e.map (·.map (· * (-1)))) o.isFloat) =
      some (e.map (·.map (· * (-1)))).length := by
    unfold num_channels
    rw [hvo']
  have hlo' : signal_length (setQ o (e.map (·.map (· * (-1)))) o.isFloat) =
      some (rowLen (e.map (·.map (· * (-1))))) := by
    unfold signal_length
    rw [hvo']
    rfl
  have hsr' : (setQ o (e.map (·.map (· * (-1)))) o.isFloat).sampleRate =
      o.sampleRate := by
    rw [hsetQo]
  have hif' : (setQ o (e.map (·.map (· * (-1)))) o.isFloat).isFloat =
      o.isFloat := by
    rw [hsetQo]
  have hverify : ∀ (p : ASig σ) (ep : List (List ℚ)),
      num_channels p = some ep.length → signal_length p = some (rowLen ep) →
      ((d.length ≠ ep.length ∨ s.sampleRate ≠ p.sampleRate ∨
        rowLen d ≠ rowLen ep) →
        (verify_audio_arithmetic s p).isSome) ∧
      (d.length = ep.length → s.sampleRate = p.sampleRate →
        rowLen d = rowLen ep → verify_audio_arithmetic s p = none) := by
    intro p ep hnp hlp
    constructor
    · intro hdiff
      unfold verify_audio_arithmetic verify_audio
      rw [hns, hnp]
      by_cases h1 : (some d.length : Option ℕ) ≠ some ep.length
      · rw [if_pos h1]
        rfl
      · rw [if_neg h1]
        by_cases h2 : s.sampleRate ≠ p.sampleRate
        · rw [if_pos h2]
          rfl
        · rw [if_neg h2]
          rw [if_neg (by simp [hdefs])]
          dsimp only
          rw [hls, hlp]
          have h3 : (some (rowLen d) : Option ℕ) ≠ some (rowLen ep) := by
            rcases hdiff with h | h | h
            · exact absurd (by simpa using not_not.mp h1) h
            · exact absurd (not_not.mp h2) h
            · simpa using h
          rw [if_pos h3]
          rfl
    · intro h1 h2 h3
      unfold verify_audio_arithmetic verify_audio
      rw [hns, hnp, hls, hlp]
      rw [if_neg (by simp [h1]), if_neg (by simp [h2]),
        if_neg (by simp [hdefs])]
      dsimp only
      rw [if_neg (by simp [h3])]
  have hvo2 := hverify o e hno hlo
  have hvo'2 := hverify (setQ o (e.map (·.map (· * (-1)))) o.isFloat)
    (e.map (·.map (· * (-1)))) hno' hlo'
  constructor
  · intro hdiff
    have hdiff' : d.length ≠ (e.map (·.map (· * (-1)))).length ∨
        s.sampleRate ≠ (setQ o (e.map (·.map (· * (-1)))) o.isFloat).sampleRate ∨
        rowLen d ≠ rowLen (e.map (·.map (· * (-1)))) := by
      rw [List.length_map, hrow_eneg, hsr']
      exact hdiff
    constructor
    · obtain ⟨msg, hmsg⟩ := Option.isSome_iff_exists.mp (hvo2.1 hdiff)
      unfold add
      rw [hmsg]
      rfl
    · unfold subtract
      rw [hgain]
      show (add s (setQ o (e.map (·.map (· * (-1)))) o.isFloat)).toOption = none
      obtain ⟨msg, hmsg⟩ := Option.isSome_iff_exists.mp (hvo'2.1 hdiff')
      unfold add
      rw [hmsg]
      rfl
  · intro h1 h2 h3
    have hrlM : rowLen (d.zipWith (·.zipWith (· + ·) ·) e) = rowLen d := by
      rw [rowLen_zipWith, h3, min_self]
    have hwfM : ¬ rowLen (d.zipWith (·.zipWith (· + ·) ·) e) <
        (d.zipWith (·.zipWith (· + ·) ·) e).length := by
      rw [hrlM, List.length_zipWith, ← h1, min_self]
      omega
    constructor
    · unfold add
      rw [hvo2.2 h1 h2 h3]
      dsimp only
      rw [hvs, hvo]
      dsimp only
      rw [setQ_eq s _ (s.isFloat || o.isFloat) hwfM]
      rw [hrlM]
    · unfold subtract
      rw [hgain]
      show add s (setQ o (e.map (·.map (· * (-1)))) o.isFloat) = _
      unfold add
      rw [hvo'2.2 (by rw [List.length_map]; exact h1)
        (by rw [hsr']; exact h2) (by rw [hrow_eneg]; exact h3)]
      dsimp only
      rw [hvs, hvo']
      dsimp only
      have hdiffM : d.zipWith (·.zipWith (· + ·) ·) (e.map (·.map (· * (-1)))) =
          d.zipWith (·.zipWith (· - ·) ·) e := zipWith_add_map_neg d e
      have hrlM2 : rowLen (d.zipWith (·.zipWith (· - ·) ·) e) = rowLen d := by
        rw [rowLen_zipWith, h3, min_self]
      have hwfM2 : ¬ rowLen (d.zipWith (·.zipWith (· - ·) ·) e) <
          (d.zipWith (·.zipWith (· - ·) ·) e).length := by
        rw [hrlM2, List.length_zipWith, ← h1, min_self]
        omega
      rw [hdiffM, hif']
      rw [setQ_eq s _ (s.isFloat || o.isFloat) hwfM2]
      rw [hrlM2]

/-- **C4** (witness for the amended theorem): two matching one-channel
signals add to their sample-wise sum and subtract to their sample-wise
difference. -/
theorem add_subtract_spec_witness :
    (add (mkSig [[1, 2]] true) (mkSig [[5, 6]] false)).toOption.map
      (·.audioData) = some (some [[6, 8]]) ∧
    (subtract (mkSig [[1, 2]] true) (mkSig [[5, 6]] false)).toOption.map
      (·.audioData) = some (some [[-4, -4]]) := by
  have h := (add_subtract_spec (mkSig [[1, 2]] true) (mkSig [[5, 6]] false)
    [[1, 2]] [[5, 6]] rfl rfl (by decide) (by decide) (by decide) (by decide)
    rfl rfl).2 rfl rfl rfl
  constructor
  · rw [h.1]
    norm_num [Except.toOption, List.zipWith]
  · rw [h.2]
    norm_num [Except.toOption, List.zipWith]

/-- **C7** (counterexample).  The claim says the samples always end up in
a floating representation; but the `astype('float')` conversion sits only
inside the `max > 1` branch.  An integer-typed signal `[[1]]` (peak
exactly 1) passes through `peak_normalize` completely unchanged — still
integer-typed. -/
theorem peak_normalize_no_float_counterexample :
    (peak_normalize (mkSig [[1]] false)).1 = mkSig [[1]] false ∧
    (peak_normalize (mkSig [[1]] false)).2 = none ∧
    (mkSig [[1]] false).isFloat = false := by
  have hview : audio_data (mkSig [[1]] false) = some [[1]] := rfl
  have hmax : npMaxAbs [[(1 : ℚ)]] = .ok 1 := by
    unfold npMaxAbs
    norm_num [List.max?]
  refine ⟨?_, ?_, rfl⟩ <;>
  · unfold peak_normalize
    rw [hview]
    dsimp only
    rw [hmax]
    dsimp only
    rw [if_neg (by norm_num)]

/-- **C7** (amended).  On a non-empty, well-formed, default-region
signal, `peak_normalize` never raises; if the maximum absolute sample is
already at most `1.0`, the signal is left completely unchanged (never
amplified — and an integer representation is *not* converted to floats,
see the counterexample); if it exceeds `1.0`, the samples are divided by
it and converted to a floating representation; in both cases every
resulting sample has absolute value at most `1.0`. -/
theorem peak_normalize_spec {σ : Type} (s : ASig σ) (d : List (List ℚ))
    (hd : s.audioData = some d)
    (hrect : ∀ r ∈ d, r.length = rowLen d)
    (hwf : d.length ≤ rowLen d)
    (hdef : active_region_is_default s = true)
    (h0 : 0 < d.length) (h1 : 0 < rowLen d) :
    (peak_normalize s).2 = none ∧
    (∀ mx, npMaxAbs d = .ok mx → mx ≤ 1 → peak_normalize s = (s, none)) ∧
    (∀ mx, npMaxAbs d = .ok mx → 1 < mx → (peak_normalize s).1 =
      { s with
        audioData := some (d.map (·.map (· / mx))),
        isFloat := true,
        activeStart := some 0,
        activeEnd := some ((rowLen d : ℕ) : ℤ) }) ∧
    (∀ d2, ((peak_normalize s).1).audioData = some d2 →
      ∀ r ∈ d2, ∀ x ∈ r, |x| ≤ 1) := by
  have hview : audio_data s = some d := audio_data_default s d hd hdef hrect
  have hflat : d.flatMap (·.map abs) ≠ [] := by
    rcases d with _ | ⟨r0, d'⟩
    · exact absurd h0 (by simp)
    · have hr0 : r0.length = rowLen (r0 :: d') := hrect r0 (by simp)
      rw [← hr0] at h1
      rcases r0 with _ | ⟨y, ys⟩
      · exact absurd h1 (by simp)
      · simp
  have hmax : ∃ mx, (d.flatMap (·.map abs)).max? = some mx := by
    rcases hm : (d.flatMap (·.map abs)).max? with _ | mx
    · exact absurd (List.max?_eq_none_iff.mp hm) hflat
    · exact ⟨mx, rfl⟩
  obtain ⟨mx, hmx⟩ := hmax
  have hok : npMaxAbs d = .ok mx := by
    unfold npMaxAbs
    rw [hmx]
  have hanti : Std.Antisymm ((· : ℚ) ≤ ·) := ⟨le_antisymm⟩
  have hmax2 := (List.max?_eq_some_iff (fun a : ℚ => le_refl a)
    (fun a b : ℚ => max_choice a b)
    (fun a b c : ℚ => max_le_iff)).mp hmx
  have hmem : ∀ r ∈ d, ∀ x ∈ r, |x| ≤ mx := by
    intro r hr x hx
    exact hmax2.2 _ (List.mem_flatMap.mpr ⟨r, hr, List.mem_map.mpr ⟨x, hx, rfl⟩⟩)
  refine ⟨?_, ?_, ?_, ?_⟩
  · unfold peak_normalize
    rw [hview]
    dsimp only
    rw [hok]
    dsimp only
    split <;> rfl
  · intro mx0 hok0 hle
    have hmm : mx = mx0 := by
      injection hok.symm.trans hok0
    unfold peak_normalize
    rw [hview]
    dsimp only
    rw [hok]
    dsimp only
    rw [if_neg (not_lt.mpr (hmm ▸ hle))]
  · intro mx0 hok0 hlt
    have hmm : mx = mx0 := by
      injection hok.symm.trans hok0
    subst hmm
    unfold peak_normalize
    rw [hview]
    dsimp only
    rw [hok]
    dsimp only
    rw [if_pos hlt]
    show setQ s (d.map (·.map (· / mx))) true = _
    have hwfM : ¬ (rowLen (d.map (·.map (· / mx)))) <
        (d.map (·.map (· / mx))).length := by
      rw [rowLen_map_rows, List.length_map]
      omega
    rw [setQ_eq s _ true hwfM]
    rw [rowLen_map_rows]
  · intro d2 hd2 r hr x hx
    rcases lt_or_le 1 mx with hgt | hle
    · have hres : (peak_normalize s).1 =
          { s with
            audioData := some (d.map (·.map (· / mx))),
            isFloat := true,
            activeStart := some 0,
            activeEnd := some ((rowLen d : ℕ) : ℤ) } := by
        unfold peak_normalize
        rw [hview]
        dsimp only
        rw [hok]
        dsimp only
        rw [if_pos hgt]
        show setQ s (d.map (·.map (· / mx))) true = _
        have hwfM : ¬ (rowLen (d.map (·.map (· / mx)))) <
            (d.map (·.map (· / mx))).length := by
          rw [rowLen_map_rows, List.length_map]
          omega
        rw [setQ_eq s _ true hwfM]
        rw [rowLen_map_rows]
      rw [hres] at hd2
      have hd2' : d2 = d.map (·.map (· / mx)) := by
        injection hd2.symm
      subst hd2'
      obtain ⟨r0, hr0, hrmap⟩ := List.mem_map.mp hr
      rw [← hrmap] at hx
      obtain ⟨y, hy, hymap⟩ := List.mem_map.mp hx
      rw [← hymap]
      have hmxpos : (0 : ℚ) < mx := lt_trans one_pos hgt
      rw [abs_div, abs_of_pos hmxpos]
      rw [div_le_one hmxpos]
      exact hmem r0 hr0 y hy
    · have hres : (peak_normalize s).1 = s := by
        unfold peak_normalize
        rw [hview]
        dsimp only
        rw [hok]
        dsimp only
        rw [if_neg (not_lt.mpr hle)]
      rw [hres, hd] at hd2
      have hd2' : d2 = d := by
        injection hd2.symm
      subst hd2'
      exact le_trans (hmem r hr x hx) hle

/-- **C7** (witness for the amended theorem): a float signal with peak 3
is scaled to peak 1; a signal already within range is untouched. -/
theorem peak_normalize_spec_witness :
    (peak_normalize (mkSig [[3]] true)).1.audioData = some [[1]] ∧
    peak_normalize (mkSig [[(1 : ℚ)/2]] false) =
      (mkSig [[(1 : ℚ)/2]] false, none) := by
  constructor
  · have h := (peak_normalize_spec (mkSig [[3]] true) [[3]] rfl (by decide)
      (by decide) (by decide) (by decide) (by decide)).2.2.1 3
      (by unfold npMaxAbs; norm_num [List.max?]) (by norm_num)
    rw [h]
    show some ([[(3 : ℚ)]].map (·.map (· / 3))) = some [[1]]
    norm_num
  · have h := (peak_normalize_spec (mkSig [[(1 : ℚ)/2]] false) [[(1 : ℚ)/2]]
      rfl (by decide) (by decide) (by decide) (by decide) (by decide)).2.1
      ((1 : ℚ)/2)
      (by unfold npMaxAbs; norm_num [List.max?, abs_of_pos]) (by norm_num)
    exact h

/-- After the first `zero_pad` loop iteration collapsed the object to a
single channel, any further channel index is out of bounds and the loop
aborts with the channel error, leaving the collapsed state behind. -/
theorem zero_pad_loop_second_errors {σ : Type} (st : ASig σ) (row : List ℚ)
    (b a : ℕ) (rest : List ℕ) (hst : st.audioData = some [row])
    (hdefst : active_region_is_default st = true) (ch : ℕ) (hch : 1 ≤ ch) :
    zero_pad_loop st b a (ch :: rest) =
      (st, some "Cannot get channel when this object only has fewer channels!") := by
  have hview : audio_data st = some [row] :=
    audio_data_default st [row] hst hdefst
      (by intro r hr; rw [List.mem_singleton] at hr; rw [hr]; rfl)
  have hnum : num_channels st = some 1 := by
    unfold num_channels
    rw [hview]
    rfl
  have hch1 : get_channel st ((ch : ℕ) : ℤ) =
      .error "Cannot get channel when this object only has fewer channels!" := by
    unfold get_channel
    rw [hnum, hview]
    dsimp only
    rw [if_pos (by push_cast; omega)]
  unfold zero_pad_loop
  rw [hch1]

/-- **C10**.  On a multi-channel signal with default active region,
`zero_pad` first replaces the whole stored array with only the padded
first channel (the loop body assigns `np.lib.pad(get_channel(ch), ...)`
to `audio_data`, collapsing the object to one channel), and then raises a
channel-bounds error at the second iteration — the remaining channels are
lost and the failure is not atomic.  Only on a single-channel signal does
it succeed, extending the length by `before + after`. -/
theorem zero_pad_spec {σ : Type} (s : ASig σ) (d : List (List ℚ))
    (hd : s.audioData = some d)
    (hrect : ∀ r ∈ d, r.length = rowLen d)
    (hwf : d.length ≤ rowLen d)
    (hdef : active_region_is_default s = true)
    (before after : ℕ) :
    (2 ≤ d.length →
      (zero_pad s before after).2.isSome ∧
      (zero_pad s before after).1.audioData =
        some [List.replicate before 0 ++ d.getD 0 [] ++
          List.replicate after 0]) ∧
    (d.length = 1 →
      (zero_pad s before after).2 = none ∧
      (zero_pad s before after).1.audioData =
        some [List.replicate before 0 ++ d.getD 0 [] ++
          List.replicate after 0] ∧
      signal_length (zero_pad s before after).1 =
        some (before + rowLen d + after)) := by
  have hview : audio_data s = some d := audio_data_default s d hd hdef hrect
  have hnum : num_channels s = some d.length := by
    unfold num_channels
    rw [hview]
  have hpadlen : (List.replicate before (0 : ℚ) ++ d.getD 0 [] ++
      List.replicate after 0).length = before + rowLen d + after := by
    unfold rowLen List.getD
    simp [List.get?_eq_getElem?]
    ring
  have hzp : zero_pad s before after =
      zero_pad_loop s before after (List.range d.length) := by
    unfold zero_pad
    rw [if_neg (by simp [hdef]), hnum]
  have hch0 : 1 ≤ d.length →
      get_channel s ((0 : ℕ) : ℤ) = .ok (d.getD 0 []) := by
    intro hpos
    unfold get_channel
    rw [hnum, hview]
    dsimp only
    have hA : ¬ ((d.length : ℤ) ≤ (((0 : ℕ) : ℤ))) := by
      push_cast
      omega
    rw [if_neg hA]
    rw [if_neg (by decide : ¬ (((0 : ℕ) : ℤ) < 0))]
    rfl
  have hwfM : 1 ≤ d.length →
      ¬ (([(List.replicate before (0 : ℚ) ++ d.getD 0 [] ++
        List.replicate after 0)] : List (List ℚ)).getD 0 []).length <
        ([(List.replicate before (0 : ℚ) ++ d.getD 0 [] ++
        List.replicate after 0)] : List (List ℚ)).length := by
    intro hpos
    show ¬ (List.replicate before (0 : ℚ) ++ d.getD 0 [] ++
      List.replicate after 0).length < 1
    rw [hpadlen]
    omega
  constructor
  · intro h2
    have hs1 := setQ_eq s
      [List.replicate before (0 : ℚ) ++ d.getD 0 [] ++ List.replicate after 0]
      s.isFloat (hwfM (by omega))
    obtain ⟨k, hk⟩ : ∃ k, d.length = k + 2 := ⟨d.length - 2, by omega⟩
    have hr : List.range d.length =
        0 :: 1 :: ((List.range k).map Nat.succ).map Nat.succ := by
      rw [hk, List.range_succ_eq_map, List.range_succ_eq_map]
      rfl
    rw [hzp, hr]
    unfold zero_pad_loop
    rw [hch0 (by omega)]
    dsimp only
    rw [hs1]
    rw [zero_pad_loop_second_errors _ _ _ _ _ rfl
      (by unfold active_region_is_default signalLengthFull; simp) 1
      (le_refl 1)]
    exact ⟨rfl, rfl⟩
  · intro h1
    have hs1 := setQ_eq s
      [List.replicate before (0 : ℚ) ++ d.getD 0 [] ++ List.replicate after 0]
      s.isFloat (hwfM (by omega))
    have hr : List.range d.length = [0] := by
      rw [h1]
      rfl
    rw [hzp, hr]
    unfold zero_pad_loop
    rw [hch0 (by omega)]
    dsimp only
    rw [hs1]
    unfold zero_pad_loop
    refine ⟨rfl, rfl, ?_⟩
    unfold signal_length
    rw [audio_data_default _
      [List.replicate before (0 : ℚ) ++ d.getD 0 [] ++ List.replicate after 0]
      rfl (by unfold active_region_is_default signalLengthFull; simp)
      (by intro r hr2; rw [List.mem_singleton] at hr2; rw [hr2]; rfl)]
    show some (rowLen [List.replicate before (0 : ℚ) ++ d.getD 0 [] ++
      List.replicate after 0]) = _
    unfold rowLen
    rw [show ([(List.replicate before (0 : ℚ) ++ d.getD 0 [] ++
      List.replicate after 0)] : List (List ℚ)).getD 0 [] =
      List.replicate before (0 : ℚ) ++ d.getD 0 [] ++
      List.replicate after 0 from rfl]
    rw [hpadlen]
    rfl

/-- **C10** (witness): a 2-channel signal loses its second channel and
errors; a 1-channel signal is padded to length `2 + 2 + 1 = 5`. -/
theorem zero_pad_spec_witness :
    (zero_pad (mkSig [[1, 2], [3, 4]] true) 1 1).2.isSome ∧
    (zero_pad (mkSig [[1, 2], [3, 4]] true) 1 1).1.audioData =
      some [[0, 1, 2, 0]] ∧
    (zero_pad (mkSig [[1, 2]] true) 2 1).2 = none ∧
    (zero_pad (mkSig [[1, 2]] true) 2 1).1.audioData =
      some [[0, 0, 1, 2, 0]] ∧
    signal_length (zero_pad (mkSig [[1, 2]] true) 2 1).1 = some 5 := by
  have h2 := (zero_pad_spec (mkSig [[1, 2], [3, 4]] true) [[1, 2], [3, 4]]
    rfl (by decide) (by decide) (by decide) 1 1).1 (by decide)
  have h1 := (zero_pad_spec (mkSig [[1, 2]] true) [[1, 2]]
    rfl (by decide) (by decide) (by decide) 2 1).2 (by decide)
  refine ⟨h2.1, ?_, h1.1, ?_, ?_⟩
  · rw [h2.2]
    rfl
  · rw [h1.2.1]
    rfl
  · rw [h1.2.2]
    rfl

/-- **C5**.  `apply_mask` raises whenever the mask's shape differs from
the stored time-frequency array's shape (never broadcasting); on matching
shapes it returns a *new* object whose frequency-domain data is the
element-wise complex product of the original and the mask, and whose
time-domain buffer is cleared.  The embedding is a pure function of `s`
(the source deep-copies), so the input signal's buffers are untouched. -/
theorem apply_mask_spec (s : ASig QC) (st mask : List (List (List QC)))
    (hst : s.stftData = some st) :
    (shape3 mask ≠ shape3 st → (apply_mask s mask).toOption = none) ∧
    (shape3 mask = shape3 st → apply_mask s mask =
      .ok { s with
            stftData := some (st.zipWith (·.zipWith (·.zipWith QC.mul ·) ·) mask),
            audioData := none }) := by
  constructor
  · intro hne
    unfold apply_mask
    rw [hst]
    dsimp only
    rw [if_pos hne]
    rfl
  · intro heq
    unfold apply_mask
    rw [hst]
    dsimp only
    rw [if_neg (by simp [heq])]
    unfold make_copy_with_stft_data
    rfl

/-- **C5** (witness): a 1×1×2 mask multiplies a 1×1×2 spectrogram
entry-wise ((1+2i)(2+0i) = 2+4i, (3+4i)(0+1i) = -4+3i); a 1×1×1 mask is
rejected. -/
theorem apply_mask_spec_witness :
    (apply_mask
      { audioData := none, isFloat := true, sampleRate := 44100,
        activeStart := none, activeEnd := none,
        stftData := some [[[⟨1, 2⟩, ⟨3, 4⟩]]] }
      [[[⟨2, 0⟩, ⟨0, 1⟩]]]).toOption.map (fun r => r.stftData) =
      some (some [[[⟨2, 4⟩, ⟨-4, 3⟩]]]) ∧
    (apply_mask
      { audioData := none, isFloat := true, sampleRate := 44100,
        activeStart := none, activeEnd := none,
        stftData := some [[[⟨1, 2⟩, ⟨3, 4⟩]]] }
      [[[⟨1, 0⟩]]]).toOption = none := by
  have h := apply_mask_spec
    { audioData := none, isFloat := true, sampleRate := 44100,
      activeStart := none, activeEnd := none,
      stftData := some [[[⟨1, 2⟩, ⟨3, 4⟩]]] }
    [[[⟨1, 2⟩, ⟨3, 4⟩]]] [[[⟨2, 0⟩, ⟨0, 1⟩]]] rfl
  have h2 := apply_mask_spec
    { audioData := none, isFloat := true, sampleRate := 44100,
      activeStart := none, activeEnd := none,
      stftData := some [[[⟨1, 2⟩, ⟨3, 4⟩]]] }
    [[[⟨1, 2⟩, ⟨3, 4⟩]]] [[[⟨1, 0⟩]]] rfl
  constructor
  · rw [h.2 rfl]
    show some (some ([[[(⟨1, 2⟩ : QC), ⟨3, 4⟩]]].zipWith
      (·.zipWith (·.zipWith QC.mul ·) ·) [[[⟨2, 0⟩, ⟨0, 1⟩]]])) = _
    simp [QC.mul]
    norm_num
  · exact h2.1 (by decide)

/-- Natural reconstruction length of the modelled `e_istft`:
`(frames - 1) * hop + windowLength`. -/
theorem length_e_istft {F : Type} [Field F] [DecidableEq F]
    (S : List (List F)) (wl hp : ℕ) (w : List F) (ωinv ninv : F) :
    (e_istft S wl hp w ωinv ninv).length = (S.length - 1) * hp + wl := by
  unfold e_istft
  simp

/-- **C6** (counterexample).  The claim says the inverse transform
truncates *or zero-pads* to `truncate_to_length`, so the returned signal
has exactly that many samples per channel.  A one-frame spectrogram
(window 2, hop 2) reconstructs 2 samples naturally; with
`truncate_to_length = 5` the code returns a channel of length 2, not 5 —
the slice `[:, :truncate_to_length]` never pads. -/
theorem istft_truncate_counterexample :
    (audioSignal_istft_calc
      { audioData := none, isFloat := true, sampleRate := 44100,
        activeStart := none, activeEnd := none,
        stftData := some [[[2, 0]]] }
      2 2 (rectWindow 2) (-1) (1/2) (some 5)).toOption.map
      (·.map List.length) = some [2] ∧ (2 : ℕ) ≠ 5 := by
  constructor
  · rfl
  · decide

/-- **C6** (amended).  `AudioSignal.istft` truncates but never zero-pads:
with a positive `truncate_to_length = v` each returned channel has
`min v (naturalLength)` samples (shorter than `v` whenever the natural
reconstruction is shorter); with `truncate_to_length` absent it truncates
to the known signal length `L` (again `min L naturalLength`) when `L > 0`;
with no `truncate_to_length`, no known signal length (or a non-positive
one), channels keep their natural length `(frames - 1) * hop + window`. -/
theorem istft_length_spec (s : ASig ℚ) (st : List (List (List ℚ)))
    (wl hp : ℕ) (w : List ℚ) (ωinv ninv : ℚ)
    (hst : s.stftData = some st) (hsz : ¬ stftSize st = 0) :
    (∀ v : ℤ, 0 < v →
      (audioSignal_istft_calc s wl hp w ωinv ninv (some v)).toOption.map
        (·.map List.length) =
        some (st.map (fun ch => min v.toNat ((ch.length - 1) * hp + wl)))) ∧
    (∀ v : ℤ, v ≤ 0 →
      (audioSignal_istft_calc s wl hp w ωinv ninv (some v)).toOption.map
        (·.map List.length) =
        some (st.map (fun ch => (ch.length - 1) * hp + wl))) ∧
    (∀ L : ℕ, signal_length s = some L → 0 < L →
      (audioSignal_istft_calc s wl hp w ωinv ninv none).toOption.map
        (·.map List.length) =
        some (st.map (fun ch => min L ((ch.length - 1) * hp + wl)))) ∧
    (signal_length s = none →
      (audioSignal_istft_calc s wl hp w ωinv ninv none).toOption.map
        (·.map List.length) =
        some (st.map (fun ch => (ch.length - 1) * hp + wl))) ∧
    (signal_length s = some 0 →
      (audioSignal_istft_calc s wl hp w ωinv ninv none).toOption.map
        (·.map List.length) =
        some (st.map (fun ch => (ch.length - 1) * hp + wl))) := by
  have hnat : ∀ ch : List (List ℚ),
      (e_istft ch wl hp w ωinv ninv).length = (ch.length - 1) * hp + wl :=
    fun ch => length_e_istft ch wl hp w ωinv ninv
  refine ⟨?_, ?_, ?_, ?_, ?_⟩
  · intro v hv
    unfold audioSignal_istft_calc
    rw [hst]
    dsimp only
    rw [if_neg hsz]
    unfold istft_truncate
    dsimp only
    rw [if_pos hv]
    show some (((st.map (fun ch => e_istft ch wl hp w ωinv ninv)).map
      (·.take v.toNat)).map List.length) = _
    rw [List.map_map, List.map_map]
    congr 1
    apply List.map_congr_left
    intro ch _
    show ((e_istft ch wl hp w ωinv ninv).take v.toNat).length = _
    rw [List.length_take, hnat]
  · intro v hv
    unfold audioSignal_istft_calc
    rw [hst]
    dsimp only
    rw [if_neg hsz]
    unfold istft_truncate
    dsimp only
    rw [if_neg (by omega)]
    show some ((st.map (fun ch => e_istft ch wl hp w ωinv ninv)).map
      List.length) = _
    rw [List.map_map]
    congr 1
    apply List.map_congr_left
    intro ch _
    exact hnat ch
  · intro L hL hLpos
    unfold audioSignal_istft_calc
    rw [hst]
    dsimp only
    rw [if_neg hsz]
    unfold istft_truncate
    rw [hL]
    dsimp only
    rw [if_pos (by exact_mod_cast hLpos)]
    show some (((st.map (fun ch => e_istft ch wl hp w ωinv ninv)).map
      (·.take ((L : ℤ)).toNat)).map List.length) = _
    rw [List.map_map, List.map_map]
    congr 1
    apply List.map_congr_left
    intro ch _
    show ((e_istft ch wl hp w ωinv ninv).take ((L : ℤ)).toNat).length = _
    rw [List.length_take, hnat, Int.toNat_natCast]
  · intro hL
    unfold audioSignal_istft_calc
    rw [hst]
    dsimp only
    rw [if_neg hsz]
    unfold istft_truncate
    rw [hL]
    dsimp only
    show some ((st.map (fun ch => e_istft ch wl hp w ωinv ninv)).map
      List.length) = _
    rw [List.map_map]
    congr 1
    apply List.map_congr_left
    intro ch _
    exact hnat ch
  · intro hL
    unfold audioSignal_istft_calc
    rw [hst]
    dsimp only
    rw [if_neg hsz]
    unfold istft_truncate
    rw [hL]
    dsimp only
    rw [if_neg (by decide : ¬ (0 : ℤ) < ((0 : ℕ) : ℤ))]
    show some ((st.map (fun ch => e_istft ch wl hp w ωinv ninv)).map
      List.length) = _
    rw [List.map_map]
    congr 1
    apply List.map_congr_left
    intro ch _
    exact hnat ch

/-- **C6** (witness): one frame, window 2, hop 2 (natural length 2):
truncating to 1 gives 1 sample, truncating to 5 gives only 2. -/
theorem istft_length_spec_witness :
    (audioSignal_istft_calc
      { audioData := none, isFloat := true, sampleRate := 44100,
        activeStart := none, activeEnd := none,
        stftData := some [[[2, 0]]] }
      2 2 (rectWindow 2) (-1) (1/2) (some 1)).toOption.map
      (·.map List.length) = some [1] ∧
    (audioSignal_istft_calc
      { audioData := none, isFloat := true, sampleRate := 44100,
        activeStart := none, activeEnd := none,
        stftData := some [[[2, 0]]] }
      2 2 (rectWindow 2) (-1) (1/2) none).toOption.map
      (·.map List.length) = some [2] := by
  constructor
  · have h := (istft_length_spec
      { audioData := none, isFloat := true, sampleRate := 44100,
        activeStart := none, activeEnd := none,
        stftData := some [[[2, 0]]] } [[[2, 0]]]
      2 2 (rectWindow 2) (-1) (1/2) rfl (by decide)).1 1 (by decide)
    rw [h]
    rfl
  · have h := (istft_length_spec
      { audioData := none, isFloat := true, sampleRate := 44100,
        activeStart := none, activeEnd := none,
        stftData := some [[[2, 0]]] } [[[2, 0]]]
      2 2 (rectWindow 2) (-1) (1/2) rfl (by decide)).2.2.2.1 rfl
    rw [h]
    rfl

/-- `getD` of a function mapped over `List.range`. -/
theorem range_map_getD {α : Type} (f : ℕ → α) (dflt : α) {n j : ℕ}
    (hj : j < n) : ((List.range n).map f).getD j dflt = f j := by
  rw [List.getD, List.get?_eq_getElem?, List.getElem?_map,
    List.getElem?_range hj]
  rfl

/-- `getD` inside a replicated list. -/
theorem replicate_getD {α : Type} (a dflt : α) {n j : ℕ} (hj : j < n) :
    (List.replicate n a).getD j dflt = a := by
  rw [List.getD, List.get?_eq_getElem?, List.getElem?_replicate, if_pos hj]
  rfl

/-- Orthogonality of the root-of-unity characters: for `m, j < n`,
`Σ_{k<n} (ω^m · ω⁻¹^j)^k` is `n` when `m = j` and `0` otherwise. -/
theorem root_orthogonality {F : Type} [Field F] {n m j : ℕ} {ω ωinv : F}
    (hprim : IsPrimitiveRoot ω n) (hinv : ωinv * ω = 1)
    (hm : m < n) (hj : j < n) :
    ∑ k ∈ Finset.range n, (ω ^ m * ωinv ^ j) ^ k =
      if m = j then (n : F) else 0 := by
  have hn0 : 0 < n := Nat.pos_of_ne_zero (by omega)
  have hω0 : ω ≠ 0 := by
    intro h
    have hpow := hprim.pow_eq_one
    rw [h, zero_pow (by omega : n ≠ 0)] at hpow
    exact zero_ne_one hpow
  have hωinv : ωinv = ω⁻¹ := eq_inv_of_mul_eq_one_left hinv
  by_cases hmj : m = j
  · subst hmj
    rw [if_pos rfl]
    have hc : ω ^ m * ωinv ^ m = 1 := by
      rw [hωinv, inv_pow, mul_inv_cancel₀ (pow_ne_zero m hω0)]
    rw [hc]
    simp
  · rw [if_neg hmj]
    have hc1 : ω ^ m * ωinv ^ j ≠ 1 := by
      rw [hωinv, inv_pow]
      intro hcontra
      rw [mul_inv_eq_one₀ (pow_ne_zero j hω0)] at hcontra
      exact hmj (hprim.pow_inj hm hj hcontra)
    have hcn : (ω ^ m * ωinv ^ j) ^ n = 1 := by
      rw [mul_pow, hωinv, inv_pow, inv_pow, ← pow_mul, ← pow_mul,
        mul_comm m n, mul_comm j n, pow_mul, pow_mul, hprim.pow_eq_one,
        one_pow, one_pow, inv_one, mul_one]
    rw [geom_sum_eq hc1, hcn, sub_self, zero_div]

/-- Inversion of the modelled DFT: `idft ∘ dft` is the identity on lists
of length `n`, given a primitive `n`-th root `ω`, its inverse, and `1/n`. -/
theorem idft_dft {F : Type} [Field F] [DecidableEq F] {n : ℕ}
    {ω ωinv ninv : F} (hprim : IsPrimitiveRoot ω n) (hinv : ωinv * ω = 1)
    (hninv : ninv * (n : F) = 1) (v : List F) (hlen : v.length = n)
    {j : ℕ} (hj : j < n) :
    (idft ωinv ninv (dft ω v)).getD j 0 = v.getD j 0 := by
  have hdlen : (dft ω v).length = n := by
    unfold dft
    rw [List.length_map, List.length_range, hlen]
  have hgd : ∀ k < n, (dft ω v).getD k 0 =
      ∑ m ∈ Finset.range n, v.getD m 0 * ω ^ (m * k) := by
    intro k hk
    unfold dft
    rw [hlen]
    exact range_map_getD _ _ hk
  have hidx : (idft ωinv ninv (dft ω v)).getD j 0 =
      ninv * ∑ k ∈ Finset.range n,
        (dft ω v).getD k 0 * ωinv ^ (j * k) := by
    unfold idft
    rw [hdlen]
    exact range_map_getD _ _ hj
  rw [hidx]
  have hsum : ∑ k ∈ Finset.range n, (dft ω v).getD k 0 * ωinv ^ (j * k) =
      ∑ m ∈ Finset.range n, v.getD m 0 *
        ∑ k ∈ Finset.range n, (ω ^ m * ωinv ^ j) ^ k := by
    rw [Finset.sum_congr rfl (fun k hk => by
      rw [hgd k (Finset.mem_range.mp hk), Finset.sum_mul])]
    rw [Finset.sum_comm]
    apply Finset.sum_congr rfl
    intro m _
    rw [Finset.mul_sum]
    apply Finset.sum_congr rfl
    intro k _
    rw [mul_pow, ← pow_mul, ← pow_mul, mul_comm j k]
    ring
  rw [hsum]
  rw [Finset.sum_congr rfl (fun m hm => by
    rw [root_orthogonality hprim hinv (Finset.mem_range.mp hm) hj])]
  rw [Finset.sum_eq_single j (fun m _ hmj => by rw [if_neg hmj, mul_zero])
    (fun hnotin => absurd (Finset.mem_range.mpr hj) hnotin)]
  rw [if_pos rfl]
  calc ninv * (v.getD j 0 * (n : F)) = v.getD j 0 * (ninv * (n : F)) := by
        ring
    _ = v.getD j 0 := by rw [hninv, mul_one]

/-- There is always at least one frame. -/
theorem numFrames_pos (L wl hp : ℕ) : 1 ≤ numFrames L wl hp := by
  unfold numFrames
  split
  · exact le_refl 1
  · exact Nat.le_add_left 1 _

/-- The sliding frames cover the whole signal: the natural reconstruction
length `(T-1)*hop + window` is at least the signal length (spec §4.2
step 1: the final frame may extend past the signal end). -/
theorem numFrames_covers (L wl hp : ℕ) (hhp : 0 < hp) :
    L ≤ (numFrames L wl hp - 1) * hp + wl := by
  unfold numFrames
  rcases le_or_lt L wl with h | h
  · rw [if_pos h]
    omega
  · rw [if_neg (by omega)]
    have hd := Nat.div_add_mod (L - wl + hp - 1) hp
    have hm := Nat.mod_lt (L - wl + hp - 1) hhp
    rw [Nat.add_sub_cancel, mul_comm]
    generalize hq : hp * ((L - wl + hp - 1) / hp) = P at hd ⊢
    omega

/-- Every sample index below the signal length lies in some frame. -/
theorem frame_coverage (L wl hp : ℕ) (hhp : 0 < hp) (hple : hp ≤ wl)
    {i : ℕ} (hi : i < L) :
    ∃ k < numFrames L wl hp, k * hp ≤ i ∧ i < k * hp + wl := by
  have hT1 := numFrames_pos L wl hp
  have hcov := numFrames_covers L wl hp hhp
  rcases le_or_lt (i / hp) (numFrames L wl hp - 1) with h | h
  · refine ⟨i / hp, by omega, Nat.div_mul_le_self i hp, ?_⟩
    have hd := Nat.div_add_mod i hp
    have hm := Nat.mod_lt i hhp
    rw [mul_comm]
    generalize hq : hp * (i / hp) = P at hd ⊢
    omega
  · refine ⟨numFrames L wl hp - 1, by omega, ?_, by omega⟩
    have h1 : numFrames L wl hp - 1 + 1 ≤ i / hp := by omega
    have h2 : (numFrames L wl hp - 1 + 1) * hp ≤ (i / hp) * hp :=
      Nat.mul_le_mul_right hp h1
    have h3 : (i / hp) * hp ≤ i := Nat.div_mul_le_self i hp
    have h4 : (numFrames L wl hp - 1 + 1) * hp =
        (numFrames L wl hp - 1) * hp + hp := by ring
    omega

/-- **C1** (amended).  For the rectangular window, any window length
`wl ≥ 1` with a hop that evenly divides it, and any non-empty input over
a field with a primitive `wl`-th root of unity (ℂ with `exp(-2πi/wl)`, or
exactly ℚ for `wl ≤ 2`), the inverse transform of the forward transform,
truncated to the input's length, reproduces the input *exactly* — in
particular within the claimed `1e-5` tolerance.  (The counterexample
shows this fails for other COLA-compliant windows under the spec's
squared-window renormalisation, already at the very first sample.) -/
theorem stft_istft_roundtrip_rect {F : Type} [Field F] [DecidableEq F]
    [CharZero F] {wl hp : ℕ} {ω ωinv ninv : F}
    (hprim : IsPrimitiveRoot ω wl) (hinv : ωinv * ω = 1)
    (hninv : ninv * (wl : F) = 1) (hwl : 0 < wl) (hhp : 0 < hp)
    (hdvd : hp ∣ wl) (x : List F) :
    (e_istft (e_stft x wl hp (rectWindow wl) ω) wl hp (rectWindow wl)
      ωinv ninv).take x.length = x := by
  have hple : hp ≤ wl := Nat.le_of_dvd hwl hdvd
  have hT1 := numFrames_pos x.length wl hp
  have hcov := numFrames_covers x.length wl hp hhp
  have hSlen : (e_stft x wl hp (rectWindow wl) ω).length =
      numFrames x.length wl hp := by
    unfold e_stft
    rw [List.length_map, List.length_range]
  have hframes : ∀ k < numFrames x.length wl hp,
      (e_stft x wl hp (rectWindow wl) ω).getD k [] =
        dft ω (windowedFrame x (rectWindow wl) wl hp k) := by
    intro k hk
    unfold e_stft
    exact range_map_getD _ _ hk
  have hwflen : ∀ k : ℕ,
      (windowedFrame x (rectWindow wl) wl hp k).length = wl := by
    intro k
    unfold windowedFrame
    rw [List.length_map, List.length_range]
  have hwfval : ∀ (k : ℕ) {j : ℕ}, j < wl →
      (windowedFrame x (rectWindow wl) wl hp k).getD j 0 =
        x.getD (k * hp + j) 0 := by
    intro k j hj
    unfold windowedFrame
    rw [range_map_getD _ _ hj]
    unfold rectWindow
    rw [replicate_getD _ _ hj, one_mul]
  have hreslen : (e_istft (e_stft x wl hp (rectWindow wl) ω) wl hp
      (rectWindow wl) ωinv ninv).length =
      (numFrames x.length wl hp - 1) * hp + wl := by
    unfold e_istft
    rw [List.length_map, List.length_range, hSlen]
  have hval : ∀ i < x.length,
      (e_istft (e_stft x wl hp (rectWindow wl) ω) wl hp (rectWindow wl)
        ωinv ninv).getD i 0 = x.getD i 0 := by
    intro i hi
    have hiN : i < (numFrames x.length wl hp - 1) * hp + wl := by omega
    unfold e_istft
    rw [hSlen]
    rw [range_map_getD _ _ hiN]
    dsimp only
    -- the frame values at covering indices are the original samples
    have hframeval : ∀ k ∈ Finset.range (numFrames x.length wl hp),
        (if k * hp ≤ i ∧ i < k * hp + wl then
          (idft ωinv ninv ((e_stft x wl hp (rectWindow wl) ω).getD k
            [])).getD (i - k * hp) 0
        else 0) =
        (if k * hp ≤ i ∧ i < k * hp + wl then x.getD i 0 else 0) := by
      intro k hk
      rcases Classical.em (k * hp ≤ i ∧ i < k * hp + wl) with hc | hc
      · rw [if_pos hc, if_pos hc]
        rw [hframes k (Finset.mem_range.mp hk)]
        have hjlt : i - k * hp < wl := by omega
        rw [idft_dft hprim hinv hninv _ (hwflen k) hjlt]
        rw [hwfval k hjlt]
        rw [Nat.add_sub_cancel' hc.1]
      · rw [if_neg hc, if_neg hc]
    have hnormval : ∀ k ∈ Finset.range (numFrames x.length wl hp),
        (if k * hp ≤ i ∧ i < k * hp + wl then
          ((rectWindow wl : List F).getD (i - k * hp) 0) ^ 2
        else 0) =
        (if k * hp ≤ i ∧ i < k * hp + wl then 1 else 0) := by
      intro k _
      rcases Classical.em (k * hp ≤ i ∧ i < k * hp + wl) with hc | hc
      · rw [if_pos hc, if_pos hc]
        unfold rectWindow
        rw [replicate_getD _ _ (by omega : i - k * hp < wl), one_pow]
      · rw [if_neg hc, if_neg hc]
    rw [Finset.sum_congr rfl hframeval, Finset.sum_congr rfl hnormval]
    rw [← Finset.sum_filter, ← Finset.sum_filter]
    rw [Finset.sum_const, Finset.sum_const]
    have hcard : 1 ≤ ((Finset.range (numFrames x.length wl hp)).filter
        (fun k => k * hp ≤ i ∧ i < k * hp + wl)).card := by
      obtain ⟨k, hk, hc1, hc2⟩ := frame_coverage x.length wl hp hhp hple hi
      have : k ∈ (Finset.range (numFrames x.length wl hp)).filter
          (fun k => k * hp ≤ i ∧ i < k * hp + wl) :=
        Finset.mem_filter.mpr ⟨Finset.mem_range.mpr hk, hc1, hc2⟩
      exact Finset.card_pos.mpr ⟨k, this⟩
    set c := ((Finset.range (numFrames x.length wl hp)).filter
      (fun k => k * hp ≤ i ∧ i < k * hp + wl)).card with hc
    have hcF : ((c : F)) ≠ 0 := by
      rw [Nat.cast_ne_zero]
      omega
    rw [nsmul_eq_mul, nsmul_eq_mul, mul_one]
    rw [if_neg hcF]
    rw [mul_comm (c : F) (x.getD i 0), mul_div_assoc,
      div_self hcF, mul_one]
  apply List.ext_getElem
  · rw [List.length_take, hreslen]
    omega
  · intro i h1 h2
    rw [List.getElem_take]
    have hilen : i < x.length := h2
    rw [show (e_istft (e_stft x wl hp (rectWindow wl) ω) wl hp
      (rectWindow wl) ωinv ninv)[i] =
      (e_istft (e_stft x wl hp (rectWindow wl) ω) wl hp (rectWindow wl)
        ωinv ninv).getD i 0 from
      (List.getD_eq_getElem _ _ (by rw [hreslen]; omega)).symm]
    rw [hval i hilen]
    exact (List.getD_eq_getElem x 0 hilen)

/-- **C1** (witness for the amended theorem): window 2, hop 2, over ℚ
with the exact complex root `exp(-2πi/2) = -1`; the round trip on
`[1,2,3]` (final frame zero-padded) reproduces the signal exactly. -/
theorem stft_istft_roundtrip_rect_witness :
    (e_istft (e_stft ([1, 2, 3] : List ℚ) 2 2 (rectWindow 2) (-1)) 2 2
      (rectWindow 2) (-1) (1/2)).take 3 = [1, 2, 3] ∧
    (2 ∣ 2) ∧ (0 : ℕ) < 2 := by
  refine ⟨?_, by decide, by decide⟩
  have h := @stft_istft_roundtrip_rect ℚ _ _ _ 2 2 (-1) (-1) (1/2)
    (IsPrimitiveRoot.neg_one 0 (by decide))
    (by norm_num) (by norm_num) (by decide) (by decide) (by decide)
    [1, 2, 3]
  exact h

/-- The full spectral pipeline of the counterexample evaluates to
`[0, 1, 1]`: with window `[0, 1]` (the length-2 periodic hann window) and
hop 1, sample 0 is weighted by `w[0] = 0` in the only frame covering it,
so the overlap-add accumulates `0` there and the zero-energy fallback
divides by `1`, returning `0` instead of the original sample. -/
theorem hann2_pipeline_eval :
    e_istft (e_stft ([1, 1, 1] : List ℚ) 2 1 [0, 1] (-1)) 2 1 [0, 1]
      (-1) (1/2) = [0, 1, 1] := by
  norm_num [e_istft, e_stft, numFrames, dft, idft, windowedFrame,
    List.range_succ, Finset.sum_range_succ, List.getD]

/-- **C1** (counterexample).  The claim quantifies over every
configuration whose hop divides the window and is COLA-compliant with the
chosen window.  Window `[0, 1]` (the periodic hann window of length 2)
with hop 1 satisfies both: `1 ∣ 2`, and its shifted copies sum to the
constant 1.  Yet the round trip on `x = [1, 1, 1]`, truncated to `x`'s
length, yields `[0, 1, 1]`: sample 0 differs from `x` by `1`, far beyond
the `1e-5` tolerance — the spec's engine does not reproduce the first
sample for any window vanishing at index 0. -/
theorem stft_istft_roundtrip_counterexample :
    (1 ∣ 2) ∧ isCOLA ([0, 1] : List ℚ) 1 ∧
    ¬ withinTol ((e_istft (e_stft ([1, 1, 1] : List ℚ) 2 1 [0, 1] (-1)) 2 1
      [0, 1] (-1) (1/2)).take 3) [1, 1, 1] (1/100000) := by
  refine ⟨by decide, ⟨1, ?_⟩, ?_⟩
  · intro r hr
    interval_cases r
    norm_num [Finset.sum_range_succ]
  · rw [hann2_pipeline_eval]
    intro hcon
    have h0 := hcon.2 0 (by norm_num)
    norm_num at h0

end Nussl
